import Mathlib

/-!
# Endpoint resolution (`conf/dnsresolver_windows.go`)

A shallow embedding of the resolver of peer endpoints and the properties of its
retry loops, its address scan, its TXT record parsing and its dispatch on the
port of an endpoint.

Conventions of the embedding:

* a Go `string` is the list of its bytes (`GoString`), so that byte offsets
  (`strings.LastIndexByte`, slice expressions) mean what they mean in Go;
* a Go result list `(v₁, …, vₙ, err)` is a tuple whose last component is an
  `Option Error` (`none` is `nil`);
* a run-time panic (slice bounds out of range) is the `none` of an outer `Option`;
* the operating system and the DNS libraries are an environment `Env` of
  answers indexed by the time of the call, and every call of an attempt
  function, every `time.Sleep` and every connectivity query is appended to a
  trace of `Event`s; the time of a call is the length of the trace so far.
  Log output (`log.Printf`) is not part of the trace.
-/

namespace Conf

/-! ## Strings -/

/-- A Go string, as its sequence of bytes. -/
abbrev GoString := List Nat

/-- UTF-8 encoding of a code point. -/
def utf8 (c : Nat) : GoString :=
  if c < 0x80 then [c]
  else if c < 0x800 then [0xC0 + c / 64, 0x80 + c % 64]
  else if c < 0x10000 then [0xE0 + c / 4096, 0x80 + c / 64 % 64, 0x80 + c % 64]
  else [0xF0 + c / 262144, 0x80 + c / 4096 % 64, 0x80 + c / 64 % 64, 0x80 + c % 64]

/-- The Go string written as a literal. -/
def bytes (s : String) : GoString :=
  (s.toList.map (fun c => utf8 c.toNat)).flatten

/-- Go `strings.Index(s, sep)`: the byte offset of the first occurrence of `sep`
in `s`, `none` for Go's `-1`. -/
def Index : GoString → GoString → Option Nat
  | [], sep => if sep = [] then some 0 else none
  | c :: s, sep =>
    if sep.isPrefixOf (c :: s) then some 0
    else (Index s sep).map (· + 1)

/-- Go `strings.Contains(s, substr)`. -/
def Contains (s substr : GoString) : Bool :=
  (Index s substr).isSome

/-- The loop of Go `strings.Split` for a non-empty separator; the first argument
bounds the number of pieces still to cut. -/
def splitLoop (sep : GoString) : Nat → GoString → List GoString
  | 0, s => [s]
  | n + 1, s =>
    match Index s sep with
    | none => [s]
    | some m => s.take m :: splitLoop sep n (s.drop (m + sep.length))

/-- Go `strings.Split(s, sep)` for a non-empty separator `sep`. -/
def Split (s sep : GoString) : List GoString :=
  splitLoop sep s.length s

/-- Go `strings.LastIndexByte(s, c)`: the offset of the last byte `c` of `s`,
`-1` if there is none. -/
def LastIndexByte : GoString → Nat → Int
  | [], _ => -1
  | b :: s, c =>
    if LastIndexByte s c ≥ 0 then LastIndexByte s c + 1
    else if b = c then 0 else -1

/-- The one-byte white space of `unicode.IsSpace`: tab, line feed, vertical tab,
form feed, carriage return, space. -/
def isSpace1 (a : Nat) : Bool :=
  a == 0x09 || a == 0x0A || a == 0x0B || a == 0x0C || a == 0x0D || a == 0x20

/-- The two-byte white space of `unicode.IsSpace`: U+0085 and U+00A0. -/
def isSpace2 (a b : Nat) : Bool :=
  a == 0xC2 && (b == 0x85 || b == 0xA0)

/-- The three-byte white space of `unicode.IsSpace`: U+1680, U+2000 to U+200A,
U+2028, U+2029, U+202F, U+205F and U+3000. -/
def isSpace3 (a b c : Nat) : Bool :=
  (a == 0xE1 && b == 0x9A && c == 0x80) ||
  (a == 0xE2 && b == 0x80 &&
    ((0x80 ≤ c && c ≤ 0x8A) || c == 0xA8 || c == 0xA9 || c == 0xAF)) ||
  (a == 0xE2 && b == 0x81 && c == 0x9F) ||
  (a == 0xE3 && b == 0x80 && c == 0x80)

/-- Width in bytes of the white-space rune a string starts with, `0` when it
does not start with one. -/
def leadingSpace : GoString → Nat
  | a :: b :: c :: _ =>
    if isSpace1 a then 1 else if isSpace2 a b then 2 else if isSpace3 a b c then 3 else 0
  | [a, b] => if isSpace1 a then 1 else if isSpace2 a b then 2 else 0
  | [a] => if isSpace1 a then 1 else 0
  | [] => 0

/-- Width in bytes of the white-space rune a string ends with, read on the
reversed string; `0` when it does not end with one. -/
def trailingSpaceRev : GoString → Nat
  | c :: b :: a :: _ =>
    if isSpace1 c then 1 else if isSpace2 b c then 2 else if isSpace3 a b c then 3 else 0
  | [c, b] => if isSpace1 c then 1 else if isSpace2 b c then 2 else 0
  | [c] => if isSpace1 c then 1 else 0
  | [] => 0

/-- Width in bytes of the white-space rune a string ends with. -/
def trailingSpace (s : GoString) : Nat :=
  trailingSpaceRev s.reverse

/-- Removes white-space runes from the front for as long as `width` finds one;
the first argument bounds the number of runes removed. -/
def stripLoop (width : GoString → Nat) : Nat → GoString → GoString
  | 0, s => s
  | n + 1, s => if width s = 0 then s else stripLoop width n (s.drop (width s))

/-- Go `strings.TrimLeftFunc(s, unicode.IsSpace)`. -/
def TrimLeft (s : GoString) : GoString :=
  stripLoop leadingSpace s.length s

/-- Go `strings.TrimRightFunc(s, unicode.IsSpace)`. -/
def TrimRight (s : GoString) : GoString :=
  (stripLoop trailingSpaceRev s.length s.reverse).reverse

/-- Go `strings.TrimSpace(s)`: `s` without its leading and trailing white space. -/
def TrimSpace (s : GoString) : GoString :=
  TrimRight (TrimLeft s)

/-- Go slice expression `s[:i]`; `none` is the panic of an index out of range. -/
def sliceTo (s : GoString) (i : Nat) : Option GoString :=
  if i ≤ s.length then some (s.take i) else none

/-- Go slice expression `s[i:]`; `none` is the panic of an index out of range. -/
def sliceFrom (s : GoString) (i : Nat) : Option GoString :=
  if i ≤ s.length then some (s.drop i) else none

/-! ## Errors -/

/-- Go `error` values this code meets. -/
inductive Error where
  /-- A `windows.Errno`. -/
  | Errno (code : Nat)
  /-- An error value of `net.LookupSRV` or `net.LookupTXT`. -/
  | DNSError (detail : GoString)
  /-- The error of `parsePort` for a port text. -/
  | ParseError (text : GoString)
  deriving DecidableEq, Repr

/-- The constant `windows.WSATRY_AGAIN`. -/
def WSATRY_AGAIN : Error := Error.Errno 11002

/-- The constant `windows.WSAHOST_NOT_FOUND`. -/
def WSAHOST_NOT_FOUND : Error := Error.Errno 11001

/-- The constant `syscall.EINVAL`, the error of `windows.UTF16PtrFromString` for a
string with a NUL byte. -/
def EINVAL : Error := Error.Errno 536870951

/-! ## TXT records -/

/-- Whether a byte is a decimal digit. -/
def isDigit (b : Nat) : Bool := 48 ≤ b && b ≤ 57

/-- Value of a string of decimal digits. -/
def decimalValue (s : GoString) : Nat :=
  s.foldl (fun acc b => 10 * acc + (b - 48)) 0

/-- Whether a text is an unsigned 16-bit decimal: one decimal digit or more, of
value at most 65535. -/
def validPortText (s : GoString) : Bool :=
  !s.isEmpty && s.all isDigit && decide (decimalValue s ≤ 65535)

/-- Modelled from the spec: `parsePort` is defined in another file of package
`conf`; the port text is parsed as an unsigned 16-bit decimal, and a malformed
port text is a parse error. -/
def parsePort (s : GoString) : Nat × Option Error :=
  if validPortText s then (decimalValue s, none)
  else (0, some (Error.ParseError s))

/-- The separator `"||"` of alternatives in a TXT record. -/
def altSep : GoString := [124, 124]

/-- One TXT attempt, `resolveTxtRecordOnce(name)`, for the lookup primitive
`LookupTXT` (Go `net.LookupTXT`) as it answers at the time of the call. -/
def resolveTxtRecordOnce (LookupTXT : GoString → List GoString × Option Error)
    (name : GoString) : Option (GoString × Nat × Option Error) :=
  match LookupTXT name with
  | (_, some err) => some ([], 0, some err)
  | ([], none) => some ([], 0, none)
  | (r0 :: _, none) =>
    let targetString : Option GoString :=
      if Contains r0 altSep then (Split r0 altSep)[0]? else some r0
    match targetString with
    | none => none
    | some targetString =>
      let i := LastIndexByte targetString 58
      if i ≥ 0 then
        let targetString := TrimSpace targetString
        match sliceTo targetString i.toNat, sliceFrom targetString (i.toNat + 1) with
        | some resolvedTargetString, some resolvedPortStr =>
          let (resolvedPort, err) := parsePort resolvedPortStr
          some (resolvedTargetString, resolvedPort, err)
        | _, _ => none
      else some ([], 0, none)

/-! ## Addresses -/

namespace netip

/-- Go `netip.Addr`: the zero value, an IPv4 address of four bytes, or an IPv6
address of eight 16-bit groups with a zone (empty for none). -/
inductive Addr where
  | zero
  | ip4 (a b c d : Nat)
  | ip6 (groups : List Nat) (zone : GoString)
  deriving DecidableEq, Repr

/-- Go `Addr.IsValid`. -/
def Addr.IsValid : Addr → Bool
  | .zero => false
  | _ => true

/-- Go `Addr.Is4`. -/
def Addr.Is4 : Addr → Bool
  | .ip4 .. => true
  | _ => false

/-- Go `Addr.Is6`; an IPv4-mapped IPv6 address is an IPv6 address. -/
def Addr.Is6 : Addr → Bool
  | .ip6 .. => true
  | _ => false

/-- A number in the given base, in lower case and without leading zeros. -/
def digits (base n : Nat) : GoString :=
  (Nat.toDigits base n).map Char.toNat

/-- Dotted decimal form of four bytes. -/
def string4 (a b c d : Nat) : GoString :=
  digits 10 a ++ [46] ++ digits 10 b ++ [46] ++ digits 10 c ++ [46] ++ digits 10 d

/-- Length of the run of zero groups that starts at group `i`. -/
def zeroRun (g : List Nat) (i : Nat) : Nat :=
  ((g.drop i).takeWhile (· == 0)).length

/-- Start and end of the first longest run of at least two zero groups,
`(255, 255)` when there is none. -/
def longestZeroRun (g : List Nat) : Nat × Nat :=
  (List.range 8).foldl
    (fun best i =>
      if zeroRun g i ≥ 2 ∧ zeroRun g i > best.2 - best.1 then (i, i + zeroRun g i) else best)
    (255, 255)

/-- The groups from group `i` on, in hexadecimal, the run of zeros from
`zeroStart` to `zeroEnd` written `::`. -/
def string6 (g : List Nat) (zeroStart zeroEnd : Nat) : Nat → Nat → GoString
  | 0, _ => []
  | fuel + 1, i =>
    if i ≥ 8 then []
    else if i = zeroStart then
      [58, 58] ++
        (if zeroEnd ≥ 8 then []
         else digits 16 (g.getD zeroEnd 0) ++ string6 g zeroStart zeroEnd fuel (zeroEnd + 1))
    else
      (if i > 0 then [58] else []) ++ digits 16 (g.getD i 0) ++
        string6 g zeroStart zeroEnd fuel (i + 1)

/-- Go `Addr.String`. -/
def Addr.String : Addr → GoString
  | .zero => bytes "invalid IP"
  | .ip4 a b c d => string4 a b c d
  | .ip6 g zone =>
    let zoneSuffix : GoString := if zone = [] then [] else 37 :: zone
    if g.take 5 = [0, 0, 0, 0, 0] ∧ g.getD 5 0 = 0xffff then
      bytes "::ffff:" ++
        string4 (g.getD 6 0 / 256) (g.getD 6 0 % 256) (g.getD 7 0 / 256) (g.getD 7 0 % 256) ++
        zoneSuffix
    else
      string6 g (longestZeroRun g).1 (longestZeroRun g).2 9 0 ++ zoneSuffix

end netip

/-- The constant `windows.AF_INET`. -/
def AF_INET : Nat := 2

/-- The constant `windows.AF_INET6`. -/
def AF_INET6 : Nat := 23

/-- One node of the result list of `GetAddrInfoW`: its `Family` field, and in `Addr`
the `netip.Addr` that `winipcfg.RawSockaddrInet.Addr()` reads in the socket
address the node points to (IPv4 for a socket address of family `AF_INET`, IPv6
for `AF_INET6`, the zero value otherwise). -/
structure AddrinfoW where
  Family : Nat
  Addr : netip.Addr
  deriving DecidableEq, Repr

/-- The scan of the result list in `resolveHostnameOnce`, from the node `result`
on with the IPv6 address `v6` remembered so far. -/
def scanAddrinfo : List AddrinfoW → netip.Addr → GoString × Option Error
  | [], v6 =>
    if v6.IsValid then (v6.String, none) else ([], some WSAHOST_NOT_FOUND)
  | result :: next, v6 =>
    if result.Family ≠ AF_INET ∧ result.Family ≠ AF_INET6 then scanAddrinfo next v6
    else if result.Addr.Is4 then (result.Addr.String, none)
    else if !v6.IsValid && result.Addr.Is6 then scanAddrinfo next result.Addr
    else scanAddrinfo next v6

/-- One hostname attempt, `resolveHostnameOnce(name)`, for the system resolver
`GetAddrInfoW` (called with the hints of the source: family unspecified,
datagram socket) as it answers at the time of the call. -/
def resolveHostnameOnce (GetAddrInfoW : GoString → List AddrinfoW × Option Error)
    (name : GoString) : GoString × Option Error :=
  if 0 ∈ name then ([], some EINVAL)
  else
    match GetAddrInfoW name with
    | (_, some err) => ([], some err)
    | ([], none) => ([], some WSAHOST_NOT_FOUND)
    | (result, none) => scanAddrinfo result netip.Addr.zero

/-! ## The environment and the retry loops -/

/-- Go `net.SRV`. -/
structure SRV where
  Target : GoString
  Port : Nat
  Priority : Nat
  Weight : Nat
  deriving DecidableEq, Repr

/-- What the resolver does to the outside, in order. -/
inductive Event where
  /-- A call `time.Sleep(time.Second * seconds)`. -/
  | Sleep (seconds : Nat)
  /-- A call `resolveHostnameOnce(name)`. -/
  | HostnameAttempt (name : GoString)
  /-- A call `resolveSrvRecordOnce(name)`. -/
  | SrvAttempt (name : GoString)
  /-- A call `resolveTxtRecordOnce(name)`. -/
  | TxtAttempt (name : GoString)
  /-- A call `internetGetConnectedState`. -/
  | ConnectedState
  deriving DecidableEq, Repr

/-- The external collaborators. `StartedAtBoot` is `services.StartedAtBoot()`; the
other fields are the answers of the connectivity signal and of the lookup
primitives at a given time, the length of the trace when they are called. -/
structure Env where
  StartedAtBoot : Bool
  internetGetConnectedState : Nat → Bool
  GetAddrInfoW : Nat → GoString → List AddrinfoW × Option Error
  LookupSRV : Nat → GoString → List SRV × Option Error
  LookupTXT : Nat → GoString → List GoString × Option Error

/-- The attempt budget `maxTries` of the retry loops. -/
def maxTries (env : Env) : Nat :=
  if env.StartedAtBoot then 10 * 4 else 10

/-- The trace after the sleep that opens iteration `i` of a retry loop. -/
def sleepBefore (i : Nat) (trace : List Event) : List Event :=
  if i > 0 then trace ++ [Event.Sleep 4] else trace

/-- The `for` loop of `resolveHostname`, with `n` iterations left, at iteration `i`,
`last` being the current values of the results. -/
def resolveHostnameLoop (env : Env) (name : GoString) :
    Nat → Nat → GoString × Option Error → List Event →
      (GoString × Option Error) × List Event
  | 0, _, last, trace => (last, trace)
  | n + 1, i, _, trace =>
    let r := resolveHostnameOnce (env.GetAddrInfoW (sleepBefore i trace).length) name
    let trace1 := sleepBefore i trace ++ [Event.HostnameAttempt name]
    match r.2 with
    | none => (r, trace1)
    | some err =>
      if err = WSATRY_AGAIN then resolveHostnameLoop env name n (i + 1) r trace1
      else if err = WSAHOST_NOT_FOUND ∧ env.StartedAtBoot = true then
        if env.internetGetConnectedState trace1.length = false then
          resolveHostnameLoop env name n (i + 1) r (trace1 ++ [Event.ConnectedState])
        else (r, trace1 ++ [Event.ConnectedState])
      else (r, trace1)

/-- The function `resolveHostname(name)`, run after the trace `trace`. -/
def resolveHostname (env : Env) (name : GoString) (trace : List Event) :
    (GoString × Option Error) × List Event :=
  resolveHostnameLoop env name (maxTries env) 0 ([], none) trace

/-- One SRV attempt, `resolveSrvRecordOnce(name)`, for the lookup primitive
`LookupSRV` (Go `net.LookupSRV("", "", name)`) as it answers at the time of the
call. -/
def resolveSrvRecordOnce (LookupSRV : GoString → List SRV × Option Error)
    (name : GoString) : GoString × Nat × Option Error :=
  match LookupSRV name with
  | (_, some err) => ([], 0, some err)
  | ([], none) => ([], 0, none)
  | (r0 :: _, none) => (r0.Target, r0.Port, none)

/-- The `for` loop of `resolveSrvRecord`, with `n` iterations left, at iteration
`i`, `last` being the current values of target, port and error. -/
def resolveSrvRecordLoop (env : Env) (name : GoString) :
    Nat → Nat → GoString × Nat × Option Error → List Event →
      (GoString × Nat × Option Error) × List Event
  | 0, _, last, trace => (last, trace)
  | n + 1, i, _, trace =>
    let r := resolveSrvRecordOnce (env.LookupSRV (sleepBefore i trace).length) name
    let trace1 := sleepBefore i trace ++ [Event.SrvAttempt name]
    if r.2.2 ≠ none then resolveSrvRecordLoop env name n (i + 1) r trace1
    else if r.1 ≠ [] ∧ r.2.1 ≠ 0 then (r, trace1)
    else resolveSrvRecordLoop env name n (i + 1) r trace1

/-- The function `resolveSrvRecord(name)`, run after the trace `trace`. -/
def resolveSrvRecord (env : Env) (name : GoString) (trace : List Event) :
    (GoString × Nat × Option Error) × List Event :=
  let srv := resolveSrvRecordLoop env name (maxTries env) 0 ([], 0, none) trace
  let host := resolveHostname env srv.1.1 srv.2
  ((host.1.1, srv.1.2.1, host.1.2), host.2)

/-- The `for` loop of `resolveTxtRecord`, with `n` iterations left, at iteration
`i`, `last` being the current values of target, port and error; `none` when an
attempt panics. -/
def resolveTxtRecordLoop (env : Env) (name : GoString) :
    Nat → Nat → GoString × Nat × Option Error → List Event →
      Option ((GoString × Nat × Option Error) × List Event)
  | 0, _, last, trace => some (last, trace)
  | n + 1, i, _, trace =>
    match resolveTxtRecordOnce (env.LookupTXT (sleepBefore i trace).length) name with
    | none => none
    | some r =>
      let trace1 := sleepBefore i trace ++ [Event.TxtAttempt name]
      if r.2.2 ≠ none then resolveTxtRecordLoop env name n (i + 1) r trace1
      else if r.1 ≠ [] ∧ r.2.1 ≠ 0 then some (r, trace1)
      else resolveTxtRecordLoop env name n (i + 1) r trace1

/-- The function `resolveTxtRecord(name)`, run after the trace `trace`. -/
def resolveTxtRecord (env : Env) (name : GoString) (trace : List Event) :
    Option ((GoString × Nat × Option Error) × List Event) :=
  resolveTxtRecordLoop env name (maxTries env) 0 ([], 0, none) trace

/-! ## The configuration and its resolution -/

/-- The type `Endpoint` of package `conf`. -/
structure Endpoint where
  Host : GoString
  Port : Nat
  deriving DecidableEq, Repr

/-- Modelled from the spec: `Endpoint.IsEmpty` is defined in another file of
package `conf`; it holds iff `Host` is empty. -/
def Endpoint.IsEmpty (e : Endpoint) : Bool :=
  e.Host.length == 0

/-- The type `Peer` of package `conf`, with the one field this code touches. -/
structure Peer where
  Endpoint : Endpoint
  deriving DecidableEq, Repr

/-- The type `Config` of package `conf`, with the one field this code touches. -/
structure Config where
  Peers : List Peer
  deriving DecidableEq, Repr

/-- Outcome of a run of `ResolveEndpoints`: the peers as the run leaves them, the
error returned, and the trace. -/
structure Outcome where
  Peers : List Peer
  err : Option Error
  trace : List Event
  deriving DecidableEq, Repr

/-- The resolver call of one iteration of `ResolveEndpoints`, for a peer whose
endpoint is not empty: the values assigned to `Host`, `Port` and `err`. -/
def resolveEndpoint (env : Env) (e : Endpoint) (trace : List Event) :
    Option ((GoString × Nat × Option Error) × List Event) :=
  if e.Port = 0 then some (resolveSrvRecord env e.Host trace)
  else if e.Port = 1 then resolveTxtRecord env e.Host trace
  else
    let host := resolveHostname env e.Host trace
    some ((host.1.1, e.Port, host.1.2), host.2)

/-- The `for` loop of `ResolveEndpoints` over the peers still to visit; `none`
when a resolver panics. -/
def ResolveEndpointsLoop (env : Env) : List Peer → List Event → Option Outcome
  | [], trace => some { Peers := [], err := none, trace := trace }
  | p :: rest, trace =>
    if p.Endpoint.IsEmpty then
      (ResolveEndpointsLoop env rest trace).map (fun o => { o with Peers := p :: o.Peers })
    else
      match resolveEndpoint env p.Endpoint trace with
      | none => none
      | some ((host, port, err), trace1) =>
        let p1 : Peer := { p with Endpoint := { Host := host, Port := port } }
        match err with
        | some e => some { Peers := p1 :: rest, err := some e, trace := trace1 }
        | none =>
          (ResolveEndpointsLoop env rest trace1).map
            (fun o => { o with Peers := p1 :: o.Peers })

/-- The method `Config.ResolveEndpoints`, run after the trace `trace`. -/
def ResolveEndpoints (env : Env) (config : Config) (trace : List Event) : Option Outcome :=
  ResolveEndpointsLoop env config.Peers trace

/-! ## Vocabulary of the properties -/

/-- Whether the address scan takes a node for an IPv4 record: its family is
`AF_INET` or `AF_INET6` and its socket address is IPv4. For a node whose family
and socket address agree this is the family `AF_INET`. -/
def AddrinfoW.IsIPv4 (r : AddrinfoW) : Bool :=
  (r.Family == AF_INET || r.Family == AF_INET6) && r.Addr.Is4

/-- Whether the address scan takes a node for an IPv6 record: its family is
`AF_INET` or `AF_INET6` and its socket address is IPv6. For a node whose family
and socket address agree this is the family `AF_INET6`. -/
def AddrinfoW.IsIPv6 (r : AddrinfoW) : Bool :=
  (r.Family == AF_INET || r.Family == AF_INET6) && r.Addr.Is6

/-- The relation "`t` is the part of the record `r` before its first `"||"`", all of
`r` when `r` has no `"||"`. -/
def IsFirstAlternative (t r : GoString) : Prop :=
  (r = t ∧ ¬ altSep <:+: t) ∨ (∃ b : GoString, r = t ++ altSep ++ b ∧ ¬ altSep <:+: t ++ [124])

/-- Whether an event is a call of one of the three attempt functions. -/
def Event.isAttempt : Event → Bool
  | Event.HostnameAttempt _ => true
  | Event.SrvAttempt _ => true
  | Event.TxtAttempt _ => true
  | _ => false

/-- Number of attempts in a trace. -/
def attempts (trace : List Event) : Nat :=
  trace.countP Event.isAttempt

/-- Number of 4-second sleeps in a trace. -/
def sleeps (trace : List Event) : Nat :=
  trace.count (Event.Sleep 4)

/-- Whether the outcome of an SRV or TXT attempt ends the retry loop: no error, a
target that is not empty and a port that is not zero. -/
def isUsable (r : GoString × Nat × Option Error) : Bool :=
  r.2.2.isNone && !r.1.isEmpty && r.2.1 != 0

/-- The property of a string to be a literal IP address as the address scan produces
them: the string form of a valid address. -/
def IsIPLiteral (host : GoString) : Prop :=
  ∃ a : netip.Addr, a.IsValid = true ∧ host = a.String

/-! ## Example environments -/

/-- A system resolver that knows four names: `"c"` has an IPv6 address listed
before an IPv4 one, `"t"` one IPv4 address, `"six"` a record of another family
and two IPv6 addresses, `"n"` only a record of another family. -/
def exampleGetAddrInfoW (name : GoString) : List AddrinfoW × Option Error :=
  if name = bytes "c" then
    ([AddrinfoW.mk AF_INET6 (netip.Addr.ip6 [0x2001, 0xdb8, 0, 0, 0, 0, 0, 3] []),
      AddrinfoW.mk AF_INET (netip.Addr.ip4 10 0 0 3)], none)
  else if name = bytes "t" then ([AddrinfoW.mk AF_INET (netip.Addr.ip4 10 0 0 1)], none)
  else if name = bytes "six" then
    ([AddrinfoW.mk 17 netip.Addr.zero,
      AddrinfoW.mk AF_INET6 (netip.Addr.ip6 [0xfe80, 0, 0, 0, 0, 0, 0, 1] (bytes "7")),
      AddrinfoW.mk AF_INET6 (netip.Addr.ip6 [0x2001, 0xdb8, 0, 0, 0, 0, 0, 6] [])], none)
  else if name = bytes "n" then ([AddrinfoW.mk 17 netip.Addr.zero], none)
  else ([], some WSAHOST_NOT_FOUND)

/-- An environment of a process not started at boot, with the resolver above, an
SRV record for `"a"` and a TXT record for `"b"`. -/
def exampleEnv : Env where
  StartedAtBoot := false
  internetGetConnectedState := fun _ => true
  GetAddrInfoW := fun _ name => exampleGetAddrInfoW name
  LookupSRV := fun _ name =>
    if name = bytes "a" then ([SRV.mk (bytes "t") 51820 0 0], none)
    else ([], some (Error.DNSError (bytes "no such host")))
  LookupTXT := fun _ name =>
    if name = bytes "b" then ([bytes "10.0.0.2:51821||10.0.0.9:1"], none) else ([], none)

/-- An environment of a process started at boot and offline, in which the system
resolver never finds a host, the SRV lookup always fails and the TXT lookup
always returns a record with a malformed port. -/
def failingEnv : Env where
  StartedAtBoot := true
  internetGetConnectedState := fun _ => false
  GetAddrInfoW := fun _ _ => ([], some WSAHOST_NOT_FOUND)
  LookupSRV := fun _ _ => ([], some (Error.DNSError (bytes "no such host")))
  LookupTXT := fun _ _ => ([bytes "host:http"], none)

/-- An environment of a process not started at boot in which the SRV lookup succeeds
once, at time 0 for the name `"once"`, with target `"h"` and port 0, and fails
otherwise, and in which the system resolver answers the empty name with an
address of the local machine, as `GetAddrInfoW` does. -/
def staleEnv : Env where
  StartedAtBoot := false
  internetGetConnectedState := fun _ => true
  GetAddrInfoW := fun _ name =>
    if name = [] then ([AddrinfoW.mk AF_INET (netip.Addr.ip4 192 168 1 5)], none)
    else if name = bytes "h" then ([AddrinfoW.mk AF_INET (netip.Addr.ip4 10 0 0 7)], none)
    else ([], some WSAHOST_NOT_FOUND)
  LookupSRV := fun time name =>
    if name = bytes "once" ∧ time = 0 then ([SRV.mk (bytes "h") 0 0 0], none)
    else ([], some (Error.DNSError (bytes "server failure")))
  LookupTXT := fun _ _ => ([], none)

/-- An environment of a process not started at boot whose SRV record has port 1 and
whose TXT record is `host:1`. -/
def markerEnv : Env where
  StartedAtBoot := false
  internetGetConnectedState := fun _ => true
  GetAddrInfoW := fun _ name => exampleGetAddrInfoW name
  LookupSRV := fun _ _ => ([SRV.mk (bytes "t") 1 0 0], none)
  LookupTXT := fun _ _ => ([bytes "host:1"], none)

/-! # Properties -/

/-! ## The orchestrator -/

/-- A run of the loop returns as many peers as it was given. -/
theorem ResolveEndpointsLoop_length (env : Env) (peers : List Peer) :
    ∀ (trace : List Event) (o : Outcome),
      ResolveEndpointsLoop env peers trace = some o → o.Peers.length = peers.length := by
  induction peers with
  | nil =>
    intro trace o h
    simp only [ResolveEndpointsLoop, Option.some.injEq] at h
    subst h
    rfl
  | cons p rest ih =>
    intro trace o h
    unfold ResolveEndpointsLoop at h
    split at h
    · cases hrest : ResolveEndpointsLoop env rest trace with
      | none => simp [hrest] at h
      | some o1 =>
        simp only [hrest, Option.map_some', Option.some.injEq] at h
        subst h
        simp [ih trace o1 hrest]
    · split at h
      · exact absurd h (by simp)
      · rename_i host port err trace1 hstep
        cases err with
        | some e =>
          simp only [Option.some.injEq] at h
          subst h
          simp
        | none =>
          cases hrest : ResolveEndpointsLoop env rest trace1 with
          | none => simp [hrest] at h
          | some o1 =>
            simp only [hrest, Option.map_some', Option.some.injEq] at h
            subst h
            simp [ih trace1 o1 hrest]

/-- The loop over `front ++ back` is the loop over `front`, followed, when that
returns no error, by the loop over `back` from the trace reached. -/
theorem ResolveEndpointsLoop_append (env : Env) (front back : List Peer) :
    ∀ (trace : List Event),
      ResolveEndpointsLoop env (front ++ back) trace =
        match ResolveEndpointsLoop env front trace with
        | none => none
        | some o =>
          match o.err with
          | some e => some { Peers := o.Peers ++ back, err := some e, trace := o.trace }
          | none =>
            (ResolveEndpointsLoop env back o.trace).map
              (fun o2 => { o2 with Peers := o.Peers ++ o2.Peers }) := by
  induction front with
  | nil =>
    intro trace
    simp only [List.nil_append, ResolveEndpointsLoop]
    cases ResolveEndpointsLoop env back trace <;> simp
  | cons p rest ih =>
    intro trace
    rw [List.cons_append]
    simp only [ResolveEndpointsLoop]
    by_cases hp : p.Endpoint.IsEmpty = true
    · simp only [hp, if_true]
      rw [ih trace]
      cases ResolveEndpointsLoop env rest trace with
      | none => simp
      | some o1 =>
        cases herr : o1.err with
        | some e => simp [herr]
        | none =>
          simp only [Option.map_some', herr]
          cases hback : ResolveEndpointsLoop env back o1.trace <;> simp [hback]
    · simp only [hp, if_false]
      cases resolveEndpoint env p.Endpoint trace with
      | none => simp
      | some r =>
        obtain ⟨⟨host, port, err⟩, trace1⟩ := r
        cases err with
        | some e => simp
        | none =>
          dsimp only
          rw [ih trace1]
          cases ResolveEndpointsLoop env rest trace1 with
          | none => simp
          | some o1 =>
            cases herr : o1.err with
            | some e => simp [herr]
            | none =>
              simp only [Option.map_some', herr]
              cases hback : ResolveEndpointsLoop env back o1.trace <;> simp [hback]

/-- C1: after the peers `front` have been resolved without error, leaving the peers
`o.Peers` and the trace `o.trace`, `ResolveEndpoints` treats the next peer `p`, whose
endpoint is not empty, by its port: port 0 calls `resolveSrvRecord` on its host,
port 1 calls `resolveTxtRecord` on its host, and both assign host and port; every
other port calls `resolveHostname` on its host and assigns the host only, the peer
keeping the port it had. An error ends the run there, otherwise the run goes on
with the peers `back`. -/
theorem ResolveEndpoints_dispatch (env : Env) (front back : List Peer) (p : Peer)
    (trace : List Event) (o : Outcome)
    (hfront : ResolveEndpoints env ⟨front⟩ trace = some o) (hok : o.err = none)
    (hne : p.Endpoint.Host ≠ []) :
    o.Peers.length = front.length ∧
    (p.Endpoint.Port = 0 →
      ResolveEndpoints env ⟨front ++ p :: back⟩ trace =
        match resolveSrvRecord env p.Endpoint.Host o.trace with
        | ((host, port, some e), trace1) =>
          some ⟨o.Peers ++ ⟨⟨host, port⟩⟩ :: back, some e, trace1⟩
        | ((host, port, none), trace1) =>
          (ResolveEndpoints env ⟨back⟩ trace1).map
            (fun o2 => ⟨o.Peers ++ ⟨⟨host, port⟩⟩ :: o2.Peers, o2.err, o2.trace⟩)) ∧
    (p.Endpoint.Port = 1 →
      ResolveEndpoints env ⟨front ++ p :: back⟩ trace =
        match resolveTxtRecord env p.Endpoint.Host o.trace with
        | none => none
        | some ((host, port, some e), trace1) =>
          some ⟨o.Peers ++ ⟨⟨host, port⟩⟩ :: back, some e, trace1⟩
        | some ((host, port, none), trace1) =>
          (ResolveEndpoints env ⟨back⟩ trace1).map
            (fun o2 => ⟨o.Peers ++ ⟨⟨host, port⟩⟩ :: o2.Peers, o2.err, o2.trace⟩)) ∧
    (p.Endpoint.Port ≠ 0 → p.Endpoint.Port ≠ 1 →
      ResolveEndpoints env ⟨front ++ p :: back⟩ trace =
        match resolveHostname env p.Endpoint.Host o.trace with
        | ((host, some e), trace1) =>
          some ⟨o.Peers ++ ⟨⟨host, p.Endpoint.Port⟩⟩ :: back, some e, trace1⟩
        | ((host, none), trace1) =>
          (ResolveEndpoints env ⟨back⟩ trace1).map
            (fun o2 => ⟨o.Peers ++ ⟨⟨host, p.Endpoint.Port⟩⟩ :: o2.Peers, o2.err, o2.trace⟩)) := by
  have hempty : p.Endpoint.IsEmpty = false := by
    cases hh : p.Endpoint.Host with
    | nil => exact absurd hh hne
    | cons a s => simp [Endpoint.IsEmpty, hh]
  simp only [ResolveEndpoints] at hfront ⊢
  have hrun : ResolveEndpointsLoop env (front ++ p :: back) trace =
      (match resolveEndpoint env p.Endpoint o.trace with
        | none => none
        | some ((host, port, err), trace1) =>
          match err with
          | some e => some ⟨o.Peers ++ ⟨⟨host, port⟩⟩ :: back, some e, trace1⟩
          | none =>
            (ResolveEndpointsLoop env back trace1).map
              (fun o2 => ⟨o.Peers ++ ⟨⟨host, port⟩⟩ :: o2.Peers, o2.err, o2.trace⟩)) := by
    rw [ResolveEndpointsLoop_append, hfront]
    simp only [hok]
    rw [ResolveEndpointsLoop]
    simp only [hempty]
    cases resolveEndpoint env p.Endpoint o.trace with
    | none => simp
    | some r =>
      obtain ⟨⟨host, port, err⟩, trace1⟩ := r
      cases err with
      | some e => simp
      | none =>
        dsimp only
        cases hback : ResolveEndpointsLoop env back trace1 <;> simp [hback]
  refine ⟨ResolveEndpointsLoop_length env front trace o hfront, ?_, ?_, ?_⟩
  · intro h0
    rw [hrun]
    simp only [resolveEndpoint, h0, if_true]
    rcases hr : resolveSrvRecord env p.Endpoint.Host o.trace with ⟨⟨host, port, err⟩, trace1⟩
    cases err <;> simp
  · intro h1
    rw [hrun]
    simp only [resolveEndpoint, h1]
    simp only [show ¬ (1 : Nat) = 0 by decide, if_false, if_true]
    cases hr : resolveTxtRecord env p.Endpoint.Host o.trace with
    | none => simp
    | some r =>
      obtain ⟨⟨host, port, err⟩, trace1⟩ := r
      cases err <;> simp
  · intro h0 h1
    rw [hrun]
    simp only [resolveEndpoint, h0, h1, if_false]
    rcases hr : resolveHostname env p.Endpoint.Host o.trace with ⟨⟨host, err⟩, trace1⟩
    cases err <;> simp

/-- C1, on the peers `a` with port 0, `b` with port 1 and `c` with port 443: one SRV
attempt for `a` (and the hostname attempt for its target), one TXT attempt for `b`,
one hostname attempt for `c`, whose port is still 443. -/
theorem ResolveEndpoints_dispatch_witness :
    ResolveEndpoints exampleEnv
        ⟨[⟨⟨bytes "a", 0⟩⟩, ⟨⟨bytes "b", 1⟩⟩, ⟨⟨bytes "c", 443⟩⟩]⟩ [] =
      some ⟨[⟨⟨bytes "10.0.0.1", 51820⟩⟩, ⟨⟨bytes "10.0.0.2", 51821⟩⟩,
              ⟨⟨bytes "10.0.0.3", 443⟩⟩], none,
            [Event.SrvAttempt (bytes "a"), Event.HostnameAttempt (bytes "t"),
             Event.TxtAttempt (bytes "b"), Event.HostnameAttempt (bytes "c")]⟩ := by
  have h := (ResolveEndpoints_dispatch exampleEnv [⟨⟨bytes "a", 0⟩⟩, ⟨⟨bytes "b", 1⟩⟩] []
    ⟨⟨bytes "c", 443⟩⟩ []
    ⟨[⟨⟨bytes "10.0.0.1", 51820⟩⟩, ⟨⟨bytes "10.0.0.2", 51821⟩⟩], none,
      [Event.SrvAttempt (bytes "a"), Event.HostnameAttempt (bytes "t"),
       Event.TxtAttempt (bytes "b")]⟩
    (by decide) rfl (by decide)).2.2.2 (by decide) (by decide)
  exact h.trans (by decide)

/-- C2: when the peers `front` are resolved without error and the resolver of the
next peer `p` returns the error `e`, `ResolveEndpoints` returns `e`, its trace ends
with that resolver call, the peers `back` are as they were, and every non-empty peer
of `front` holds the host and port its resolver returned. -/
theorem ResolveEndpoints_stops_on_first_error (env : Env) (front back : List Peer) (p : Peer)
    (trace : List Event) (o : Outcome) (host : GoString) (port : Nat) (e : Error)
    (trace1 : List Event)
    (hfront : ResolveEndpoints env ⟨front⟩ trace = some o) (hok : o.err = none)
    (hne : p.Endpoint.IsEmpty = false)
    (hfail : resolveEndpoint env p.Endpoint o.trace = some ((host, port, some e), trace1)) :
    ResolveEndpoints env ⟨front ++ p :: back⟩ trace =
        some ⟨o.Peers ++ ⟨⟨host, port⟩⟩ :: back, some e, trace1⟩ ∧
      o.Peers.length = front.length ∧
      ∀ (j : Nat) (q : Peer), front[j]? = some q → q.Endpoint.IsEmpty = false →
        ∃ (oj : Outcome) (hostj : GoString) (portj : Nat) (tracej : List Event),
          ResolveEndpoints env ⟨front.take j⟩ trace = some oj ∧ oj.err = none ∧
          resolveEndpoint env q.Endpoint oj.trace = some ((hostj, portj, none), tracej) ∧
          (o.Peers ++ ⟨⟨host, port⟩⟩ :: back)[j]? = some ⟨⟨hostj, portj⟩⟩ := by
  simp only [ResolveEndpoints] at hfront ⊢
  refine ⟨?_, ResolveEndpointsLoop_length env front trace o hfront, ?_⟩
  · rw [ResolveEndpointsLoop_append, hfront]
    simp only [hok]
    rw [ResolveEndpointsLoop]
    simp [hne, hfail]
  · intro j q hj hq
    have hlt : j < front.length := by
      rcases List.getElem?_eq_some.mp hj with ⟨h, _⟩
      exact h
    have hsplit : front = front.take j ++ q :: front.drop (j + 1) := by
      have hq' : front[j] = q := by
        rcases List.getElem?_eq_some.mp hj with ⟨_, h⟩
        exact h
      rw [← hq', List.getElem_cons_drop, List.take_append_drop]
    have hrun := ResolveEndpointsLoop_append env (front.take j) (q :: front.drop (j + 1)) trace
    rw [← hsplit, hfront] at hrun
    cases hj0 : ResolveEndpointsLoop env (front.take j) trace with
    | none => simp [hj0] at hrun
    | some oj =>
      have hlen : oj.Peers.length = j := by
        rw [ResolveEndpointsLoop_length env _ trace oj hj0, List.length_take]
        omega
      cases hje : oj.err with
      | some e1 =>
        simp only [hj0, hje, Option.some.injEq] at hrun
        rw [hrun] at hok
        simp at hok
      | none =>
        simp only [hj0, hje] at hrun
        rw [ResolveEndpointsLoop] at hrun
        simp only [hq, Bool.false_eq_true, if_false] at hrun
        cases hstep : resolveEndpoint env q.Endpoint oj.trace with
        | none => simp [hstep] at hrun
        | some r =>
          obtain ⟨⟨hostj, portj, errj⟩, tracej⟩ := r
          cases errj with
          | some e1 =>
            simp only [hstep, Option.map_some', Option.some.injEq] at hrun
            rw [hrun] at hok
            simp at hok
          | none =>
            simp only [hstep] at hrun
            cases hrest : ResolveEndpointsLoop env (front.drop (j + 1)) tracej with
            | none => simp [hrest] at hrun
            | some o3 =>
              simp only [hrest, Option.map_some', Option.some.injEq] at hrun
              refine ⟨oj, hostj, portj, tracej, rfl, hje, hstep, ?_⟩
              rw [hrun]
              simp only [List.append_assoc]
              rw [List.getElem?_append_right (by omega)]
              simp [hlen]

/-- C2, on the peers `a`, `x` and `c`, where `x` is not found: the run returns
host-not-found after the attempt for `x`, `a` is resolved and `c` is untouched. -/
theorem ResolveEndpoints_stops_on_first_error_witness :
    ResolveEndpoints exampleEnv
        ⟨[⟨⟨bytes "a", 0⟩⟩, ⟨⟨bytes "x", 443⟩⟩, ⟨⟨bytes "c", 443⟩⟩]⟩ [] =
      some ⟨[⟨⟨bytes "10.0.0.1", 51820⟩⟩, ⟨⟨[], 443⟩⟩, ⟨⟨bytes "c", 443⟩⟩],
            some WSAHOST_NOT_FOUND,
            [Event.SrvAttempt (bytes "a"), Event.HostnameAttempt (bytes "t"),
             Event.HostnameAttempt (bytes "x")]⟩ :=
  (ResolveEndpoints_stops_on_first_error exampleEnv [⟨⟨bytes "a", 0⟩⟩] [⟨⟨bytes "c", 443⟩⟩]
    ⟨⟨bytes "x", 443⟩⟩ []
    ⟨[⟨⟨bytes "10.0.0.1", 51820⟩⟩], none,
      [Event.SrvAttempt (bytes "a"), Event.HostnameAttempt (bytes "t")]⟩
    [] 443 WSAHOST_NOT_FOUND
    [Event.SrvAttempt (bytes "a"), Event.HostnameAttempt (bytes "t"),
      Event.HostnameAttempt (bytes "x")]
    (by decide) rfl (by decide) (by decide)).1

/-! ## The address scan -/

/-- An IPv6 address is a valid address. -/
theorem Addr_IsValid_of_Is6 (a : netip.Addr) (h : a.Is6 = true) : a.IsValid = true := by
  cases a <;> simp_all [netip.Addr.Is6, netip.Addr.IsValid]

/-- The scan stops at the first IPv4 record, whatever IPv6 address it remembers. -/
theorem scanAddrinfo_first_IPv4 (records : List AddrinfoW) (first : AddrinfoW) :
    ∀ (v6 : netip.Addr), records.find? AddrinfoW.IsIPv4 = some first →
      scanAddrinfo records v6 = (first.Addr.String, none) := by
  induction records with
  | nil => intro v6 h; simp at h
  | cons r rest ih =>
    intro v6 h
    rw [List.find?_cons] at h
    rw [scanAddrinfo]
    by_cases hfam : r.Family ≠ AF_INET ∧ r.Family ≠ AF_INET6
    · have h4 : r.IsIPv4 = false := by
        simp [AddrinfoW.IsIPv4, hfam.1, hfam.2]
      rw [h4] at h
      rw [if_pos hfam]
      exact ih v6 h
    · have hfam' : (r.Family == AF_INET || r.Family == AF_INET6) = true := by
        by_cases h1 : r.Family = AF_INET
        · simp [h1]
        · by_cases h2 : r.Family = AF_INET6
          · simp [h2]
          · exact absurd ⟨h1, h2⟩ hfam
      rw [if_neg hfam]
      by_cases h4 : r.Addr.Is4 = true
      · have : r.IsIPv4 = true := by simp [AddrinfoW.IsIPv4, hfam', h4]
        rw [this] at h
        simp only [Option.some.injEq] at h
        subst h
        simp [h4]
      · have : r.IsIPv4 = false := by simp [AddrinfoW.IsIPv4, h4]
        rw [this] at h
        rw [if_neg h4]
        split
        · exact ih _ h
        · exact ih _ h

/-- Without an IPv4 record the scan returns the IPv6 address remembered at its
start, else the first IPv6 record, else host-not-found. -/
theorem scanAddrinfo_no_IPv4 (records : List AddrinfoW) :
    ∀ (v6 : netip.Addr), (∀ r ∈ records, AddrinfoW.IsIPv4 r = false) →
      scanAddrinfo records v6 =
        if v6.IsValid = true then (v6.String, none)
        else
          match records.find? AddrinfoW.IsIPv6 with
          | some first => (first.Addr.String, none)
          | none => ([], some WSAHOST_NOT_FOUND) := by
  induction records with
  | nil => intro v6 _; simp [scanAddrinfo]
  | cons r rest ih =>
    intro v6 h
    have hr := h r (List.mem_cons_self _ _)
    have hrest : ∀ x ∈ rest, AddrinfoW.IsIPv4 x = false :=
      fun x hx => h x (List.mem_cons_of_mem _ hx)
    rw [List.find?_cons, scanAddrinfo]
    by_cases hfam : r.Family ≠ AF_INET ∧ r.Family ≠ AF_INET6
    · have h6 : r.IsIPv6 = false := by
        simp [AddrinfoW.IsIPv6, hfam.1, hfam.2]
      rw [if_pos hfam, h6]
      exact ih v6 hrest
    · have hfam' : (r.Family == AF_INET || r.Family == AF_INET6) = true := by
        by_cases h1 : r.Family = AF_INET
        · simp [h1]
        · by_cases h2 : r.Family = AF_INET6
          · simp [h2]
          · exact absurd ⟨h1, h2⟩ hfam
      have h4 : r.Addr.Is4 = false := by
        simpa [AddrinfoW.IsIPv4, hfam'] using hr
      rw [if_neg hfam]
      simp only [h4, Bool.false_eq_true, if_false]
      by_cases hv : v6.IsValid = true
      · simp only [hv, Bool.not_true, Bool.false_and, Bool.false_eq_true, if_false, if_true]
        rw [ih v6 hrest]
        simp [hv]
      · have hv' : v6.IsValid = false := by simpa using hv
        by_cases h6 : r.Addr.Is6 = true
        · have : r.IsIPv6 = true := by simp [AddrinfoW.IsIPv6, hfam', h6]
          simp only [hv', h6, this, Bool.not_false, Bool.and_self, if_true]
          rw [ih _ hrest]
          simp [Addr_IsValid_of_Is6 _ h6]
        · have : r.IsIPv6 = false := by simp [AddrinfoW.IsIPv6, h6]
          simp only [hv', h6, this, Bool.and_false, Bool.false_eq_true, if_false]
          rw [ih _ hrest]
          simp [hv']

/-- C3: when the system resolver succeeds with a list that has an IPv4 record, one
hostname attempt returns the string form of the first IPv4 record of the list and
no error, whatever records stand before or after it. -/
theorem resolveHostnameOnce_prefers_first_IPv4
    (GetAddrInfoW : GoString → List AddrinfoW × Option Error) (name : GoString)
    (records : List AddrinfoW) (first : AddrinfoW)
    (hname : 0 ∉ name) (hcall : GetAddrInfoW name = (records, none))
    (hfirst : records.find? AddrinfoW.IsIPv4 = some first) :
    resolveHostnameOnce GetAddrInfoW name = (first.Addr.String, none) := by
  simp only [resolveHostnameOnce, hname, if_false, hcall]
  cases records with
  | nil => simp at hfirst
  | cons r rest => exact scanAddrinfo_first_IPv4 _ first _ hfirst

/-- C4: when the system resolver succeeds with a list that has no IPv4 record and
has an IPv6 record, one hostname attempt returns the string form of the first IPv6
record of the list and no error. -/
theorem resolveHostnameOnce_falls_back_to_first_IPv6
    (GetAddrInfoW : GoString → List AddrinfoW × Option Error) (name : GoString)
    (records : List AddrinfoW) (first : AddrinfoW)
    (hname : 0 ∉ name) (hcall : GetAddrInfoW name = (records, none))
    (hno4 : ∀ r ∈ records, AddrinfoW.IsIPv4 r = false)
    (hfirst : records.find? AddrinfoW.IsIPv6 = some first) :
    resolveHostnameOnce GetAddrInfoW name = (first.Addr.String, none) := by
  simp only [resolveHostnameOnce, hname, if_false, hcall]
  cases records with
  | nil => simp at hfirst
  | cons r rest =>
    dsimp only
    rw [scanAddrinfo_no_IPv4 _ _ hno4, hfirst]
    simp [netip.Addr.IsValid]

/-- C5: when the system resolver succeeds with no record, or only with records whose
family is neither `AF_INET` nor `AF_INET6`, one hostname attempt returns the empty
string and the error `WSAHOST_NOT_FOUND`. -/
theorem resolveHostnameOnce_host_not_found
    (GetAddrInfoW : GoString → List AddrinfoW × Option Error) (name : GoString)
    (records : List AddrinfoW)
    (hname : 0 ∉ name) (hcall : GetAddrInfoW name = (records, none))
    (hfamily : ∀ r ∈ records, r.Family ≠ AF_INET ∧ r.Family ≠ AF_INET6) :
    resolveHostnameOnce GetAddrInfoW name = ([], some WSAHOST_NOT_FOUND) := by
  simp only [resolveHostnameOnce, hname, if_false, hcall]
  cases records with
  | nil => rfl
  | cons r rest =>
    dsimp only
    have hno4 : ∀ x ∈ r :: rest, AddrinfoW.IsIPv4 x = false := by
      intro x hx
      simp [AddrinfoW.IsIPv4, (hfamily x hx).1, (hfamily x hx).2]
    have hno6 : (r :: rest).find? AddrinfoW.IsIPv6 = none := by
      rw [List.find?_eq_none]
      intro x hx
      simp [AddrinfoW.IsIPv6, (hfamily x hx).1, (hfamily x hx).2]
    rw [scanAddrinfo_no_IPv4 _ _ hno4, hno6]
    simp [netip.Addr.IsValid]

/-- C3, on the name `c`, whose IPv6 address is listed before its IPv4 address. -/
theorem resolveHostnameOnce_prefers_first_IPv4_witness :
    resolveHostnameOnce exampleGetAddrInfoW (bytes "c") = (bytes "10.0.0.3", none) :=
  (resolveHostnameOnce_prefers_first_IPv4 exampleGetAddrInfoW (bytes "c")
    [AddrinfoW.mk AF_INET6 (netip.Addr.ip6 [0x2001, 0xdb8, 0, 0, 0, 0, 0, 3] []),
      AddrinfoW.mk AF_INET (netip.Addr.ip4 10 0 0 3)]
    (AddrinfoW.mk AF_INET (netip.Addr.ip4 10 0 0 3))
    (by decide) (by decide) (by decide)).trans (by decide)

/-- C4, on the name `six`, which has two IPv6 addresses. -/
theorem resolveHostnameOnce_falls_back_to_first_IPv6_witness :
    resolveHostnameOnce exampleGetAddrInfoW (bytes "six") = (bytes "fe80::1%7", none) :=
  (resolveHostnameOnce_falls_back_to_first_IPv6 exampleGetAddrInfoW (bytes "six")
    [AddrinfoW.mk 17 netip.Addr.zero,
      AddrinfoW.mk AF_INET6 (netip.Addr.ip6 [0xfe80, 0, 0, 0, 0, 0, 0, 1] (bytes "7")),
      AddrinfoW.mk AF_INET6 (netip.Addr.ip6 [0x2001, 0xdb8, 0, 0, 0, 0, 0, 6] [])]
    (AddrinfoW.mk AF_INET6 (netip.Addr.ip6 [0xfe80, 0, 0, 0, 0, 0, 0, 1] (bytes "7")))
    (by decide) (by decide) (by decide) (by decide)).trans (by decide)

/-- C5, on the name `n`, which has only a record of another family. -/
theorem resolveHostnameOnce_host_not_found_witness :
    resolveHostnameOnce exampleGetAddrInfoW (bytes "n") = ([], some WSAHOST_NOT_FOUND) :=
  resolveHostnameOnce_host_not_found exampleGetAddrInfoW (bytes "n")
    [AddrinfoW.mk 17 netip.Addr.zero] (by decide) (by decide) (by decide)

/-! ## Strings -/

/-- The function `Index` finds nothing exactly when the separator does not occur. -/
theorem Index_eq_none_iff (sep : GoString) (s : GoString) :
    Index s sep = none ↔ ¬ sep <:+: s := by
  induction s with
  | nil =>
    by_cases h : sep = []
    · simp [Index, h]
    · simp [Index, h]
  | cons c s ih =>
    rw [Index, List.infix_cons_iff]
    by_cases hp : sep.isPrefixOf (c :: s) = true
    · have hp' : sep <+: c :: s := List.isPrefixOf_iff_prefix.mp hp
      simp [hp, hp']
    · have hp' : ¬ sep <+: c :: s := fun h => hp (List.isPrefixOf_iff_prefix.mpr h)
      simp only [hp, if_false, Option.map_eq_none', ih, hp', false_or, Bool.false_eq_true]

/-- A string in which a non-empty separator is found is not empty. -/
theorem Index_some_length (sep : GoString) (hsep : sep ≠ []) (s : GoString) (m : Nat)
    (h : Index s sep = some m) : s ≠ [] := by
  intro hs
  subst hs
  simp [Index, hsep] at h

/-- The offset `Index` returns cuts the string around the separator, and the
separator does not occur earlier. -/
theorem Index_some_spec (sep : GoString) (hsep : sep ≠ []) (s : GoString) :
    ∀ (m : Nat), Index s sep = some m →
      s = s.take m ++ sep ++ s.drop (m + sep.length) ∧ ¬ sep <:+: s.take m ++ sep.dropLast := by
  have hshort : ¬ sep <:+: sep.dropLast := by
    intro h
    have h1 := h.length_le
    have h2 : sep.length ≠ 0 := fun h0 => hsep (List.length_eq_zero.mp h0)
    rw [List.length_dropLast] at h1
    omega
  induction s with
  | nil =>
    intro m h
    simp [Index, hsep] at h
  | cons c s ih =>
    intro m h
    rw [Index] at h
    by_cases hp : sep.isPrefixOf (c :: s) = true
    · simp only [hp, if_true, Option.some.injEq] at h
      subst h
      obtain ⟨t, ht⟩ := List.isPrefixOf_iff_prefix.mp hp
      refine ⟨?_, by simpa using hshort⟩
      rw [← ht]
      simp
    · simp only [hp, if_false, Option.map_eq_some', Bool.false_eq_true] at h
      obtain ⟨m', hm', rfl⟩ := h
      obtain ⟨hdec, hmin⟩ := ih m' hm'
      refine ⟨?_, ?_⟩
      · simp only [List.take_succ_cons, List.cons_append]
        rw [show m' + 1 + sep.length = (m' + sep.length) + 1 by omega, List.drop_succ_cons]
        exact congrArg (c :: ·) hdec
      · simp only [List.take_succ_cons, List.cons_append]
        rw [List.infix_cons_iff]
        rintro (hpre | hinf)
        · apply hp
          rw [List.isPrefixOf_iff_prefix]
          refine hpre.trans ?_
          rw [List.prefix_cons_inj]
          refine ⟨[sep.getLast hsep] ++ s.drop (m' + sep.length), ?_⟩
          conv_rhs => rw [hdec]
          conv_rhs => rw [← List.dropLast_append_getLast hsep]
          have hlen : sep.length - 1 + 1 = sep.length := by
            have := List.length_pos.mpr hsep
            omega
          simp [hlen]
        · exact hmin hinf

/-- The separator `"||"` is not empty. -/
theorem altSep_ne_nil : altSep ≠ [] := by decide

/-- The first piece of `Split` is the text before the first separator. -/
theorem Split_head (sep : GoString) (hsep : sep ≠ []) (s : GoString) (m : Nat)
    (h : Index s sep = some m) : (Split s sep)[0]? = some (s.take m) := by
  have hs := Index_some_length sep hsep s m h
  cases hlen : s.length with
  | zero => exact absurd (List.length_eq_zero.mp hlen) hs
  | succ n => simp [Split, hlen, splitLoop, h]

/-- The function `LastIndexByte` is `-1` on a string without the byte. -/
theorem LastIndexByte_of_not_mem (c : Nat) (s : GoString) (h : c ∉ s) :
    LastIndexByte s c = -1 := by
  induction s with
  | nil => rfl
  | cons b s ih =>
    have hb : b ≠ c := fun hbc => h (by simp [hbc])
    have hs : c ∉ s := fun hc => h (List.mem_cons_of_mem _ hc)
    simp [LastIndexByte, ih hs, hb]

/-- The function `LastIndexByte` returns the offset of a byte that does not occur
after it. -/
theorem LastIndexByte_append (c : Nat) (p : GoString) (hp : c ∉ p) (h : GoString) :
    LastIndexByte (h ++ c :: p) c = h.length := by
  induction h with
  | nil => simp [LastIndexByte, LastIndexByte_of_not_mem c p hp]
  | cons x h ih =>
    have hnn : (0 : Int) ≤ (h.length : Int) := Int.natCast_nonneg _
    rw [List.cons_append, LastIndexByte, ih]
    simp [hnn]

/-- Nothing is stripped from a string that starts with no white space. -/
theorem stripLoop_of_width_zero (width : GoString → Nat) (n : Nat) (s : GoString)
    (h : width s = 0) : stripLoop width n s = s := by
  cases n <;> simp [stripLoop, h]

/-- The function `TrimSpace` leaves a string without leading and trailing white
space as it is. -/
theorem TrimSpace_of_no_space (s : GoString) (hlead : leadingSpace s = 0)
    (htrail : trailingSpace s = 0) : TrimSpace s = s := by
  have h1 : TrimLeft s = s := stripLoop_of_width_zero _ _ _ hlead
  simp only [TrimSpace, h1, TrimRight]
  rw [stripLoop_of_width_zero trailingSpaceRev _ _ htrail, List.reverse_reverse]

/-- What `validPortText` decides. -/
theorem validPortText_iff (p : GoString) :
    validPortText p = true ↔
      p ≠ [] ∧ (∀ b ∈ p, isDigit b = true) ∧ decimalValue p ≤ 65535 := by
  cases p <;> simp [validPortText, and_assoc]

/-- The value of `parsePort` on a decimal text of value at most 65535. -/
theorem parsePort_of_decimal (p : GoString) (hp : p ≠ [])
    (hdigits : ∀ b ∈ p, isDigit b = true) (hrange : decimalValue p ≤ 65535) :
    parsePort p = (decimalValue p, none) := by
  have hvalid : validPortText p = true := (validPortText_iff p).mpr ⟨hp, hdigits, hrange⟩
  simp [parsePort, hvalid]

/-- The value of `parsePort` on a text that is not an unsigned 16-bit decimal. -/
theorem parsePort_of_invalid (p : GoString) (h : validPortText p = false) :
    parsePort p = (0, some (Error.ParseError p)) := by
  simp [parsePort, h]

/-- C6: a first TXT record `r` that contains `"||"` is `a ++ "||" ++ b` with no `"||"`
starting before the end of `a`, and one TXT attempt returns on `r` what it returns
on `a` as first record: what follows the first `"||"` has no influence on target,
port and error. -/
theorem resolveTxtRecordOnce_ignores_alternatives
    (LookupTXT : GoString → List GoString × Option Error) (name r : GoString)
    (rest : List GoString) (hcall : LookupTXT name = (r :: rest, none))
    (hsep : altSep <:+: r) :
    ∃ a b : GoString, r = a ++ altSep ++ b ∧ ¬ altSep <:+: a ++ [124] ∧
      ∀ (LookupTXT' : GoString → List GoString × Option Error) (name' : GoString)
        (rest' : List GoString), LookupTXT' name' = (a :: rest', none) →
        resolveTxtRecordOnce LookupTXT name = resolveTxtRecordOnce LookupTXT' name' := by
  cases hidx : Index r altSep with
  | none => exact absurd hsep ((Index_eq_none_iff altSep r).mp hidx)
  | some m =>
    obtain ⟨hdec, hmin⟩ := Index_some_spec altSep altSep_ne_nil r m hidx
    refine ⟨r.take m, r.drop (m + altSep.length), hdec, hmin, ?_⟩
    intro LookupTXT' name' rest' hcall'
    have hnot : ¬ altSep <:+: r.take m := fun h =>
      hmin (h.trans (List.infix_append' [] _ _))
    have hidx' : Index (r.take m) altSep = none := (Index_eq_none_iff altSep _).mpr hnot
    have hhead := Split_head altSep altSep_ne_nil r m hidx
    simp only [resolveTxtRecordOnce, hcall, hcall', Contains, hidx, hidx', hhead,
      Option.isSome_some, Option.isSome_none, if_true, if_false, Bool.false_eq_true]

/-- C7: on a first TXT record `h ++ ":" ++ p` without `"||"`, without leading or
trailing white space, `p` being decimal digits of value at most 65535, one TXT
attempt returns the target `h`, the port `p` and no error; `h` may contain `:`. -/
theorem resolveTxtRecordOnce_splits_at_last_colon
    (LookupTXT : GoString → List GoString × Option Error) (name h p : GoString)
    (rest : List GoString) (hcall : LookupTXT name = ((h ++ 58 :: p) :: rest, none))
    (hnosep : ¬ altSep <:+: h ++ 58 :: p)
    (hlead : leadingSpace (h ++ 58 :: p) = 0) (htrail : trailingSpace (h ++ 58 :: p) = 0)
    (hp : p ≠ []) (hdigits : ∀ b ∈ p, isDigit b = true) (hrange : decimalValue p ≤ 65535) :
    resolveTxtRecordOnce LookupTXT name = some (h, decimalValue p, none) := by
  have hidx : Index (h ++ 58 :: p) altSep = none := (Index_eq_none_iff altSep _).mpr hnosep
  have hcolon : (58 : Nat) ∉ p := fun hmem => by
    have := hdigits 58 hmem
    simp [isDigit] at this
  have hlast := LastIndexByte_append 58 p hcolon h
  have hparse := parsePort_of_decimal p hp hdigits hrange
  simp only [resolveTxtRecordOnce, hcall, Contains, hidx, Option.isSome_none, if_false,
    Bool.false_eq_true, hlast, TrimSpace_of_no_space _ hlead htrail]
  simp [sliceTo, sliceFrom, hparse]

/-- C8, as amended: on a first TXT record without `:`, one TXT attempt returns the
empty target, port 0 and no error. -/
theorem resolveTxtRecordOnce_without_colon
    (LookupTXT : GoString → List GoString × Option Error) (name r : GoString)
    (rest : List GoString) (hcall : LookupTXT name = (r :: rest, none))
    (hcolon : (58 : Nat) ∉ r) :
    resolveTxtRecordOnce LookupTXT name = some ([], 0, none) := by
  cases hidx : Index r altSep with
  | none =>
    simp [resolveTxtRecordOnce, hcall, Contains, hidx, LastIndexByte_of_not_mem 58 r hcolon]
  | some m =>
    have hhead := Split_head altSep altSep_ne_nil r m hidx
    have hcolon' : (58 : Nat) ∉ r.take m := fun h => hcolon (List.mem_of_mem_take h)
    simp [resolveTxtRecordOnce, hcall, Contains, hidx, hhead,
      LastIndexByte_of_not_mem 58 _ hcolon']

/-- A colon is no part of a white-space rune: what stands before it does not
change the white space a string ends with. -/
theorem trailingSpaceRev_append_colon (q rest : GoString) :
    trailingSpaceRev (q ++ 58 :: rest) = trailingSpaceRev q := by
  have h1 : isSpace1 58 = false := by decide
  have h2 : ∀ b, isSpace2 b 58 = false := by intro b; simp [isSpace2]
  have h2' : ∀ c, isSpace2 58 c = false := by intro c; simp [isSpace2]
  have h3 : ∀ a b, isSpace3 a b 58 = false := by intro a b; simp [isSpace3]
  have h3' : ∀ a c, isSpace3 a 58 c = false := by intro a c; simp [isSpace3]
  have h3'' : ∀ b c, isSpace3 58 b c = false := by intro b c; simp [isSpace3]
  match q with
  | [] =>
    match rest with
    | [] => simp [trailingSpaceRev, h1]
    | [b] => simp [trailingSpaceRev, h1, h2]
    | b :: a :: _ => simp [trailingSpaceRev, h1, h2, h3]
  | [c] =>
    match rest with
    | [] => simp [trailingSpaceRev, h2']
    | a :: _ => simp [trailingSpaceRev, h2', h3']
  | [c, b] => simp [trailingSpaceRev, h3'']
  | c :: b :: a :: _ => simp [trailingSpaceRev]

/-- The white-space rune a string ends with is no longer than the string. -/
theorem trailingSpaceRev_le_length (q : GoString) : trailingSpaceRev q ≤ q.length := by
  match q with
  | [] => simp [trailingSpaceRev]
  | [c] => simp only [trailingSpaceRev]; split <;> simp
  | [c, b] => simp only [trailingSpaceRev]; split_ifs <;> simp
  | c :: b :: a :: _ => simp only [trailingSpaceRev]; split_ifs <;> simp

/-- Stripping from the right stops at a colon. -/
theorem stripLoop_append_colon (rest : GoString) :
    ∀ (n : Nat) (q : GoString) (k : Nat), q.length ≤ n →
      stripLoop trailingSpaceRev (n + k) (q ++ 58 :: rest) =
        stripLoop trailingSpaceRev n q ++ 58 :: rest := by
  intro n
  induction n with
  | zero =>
    intro q k hq
    have hq' : q = [] := List.length_eq_zero.mp (Nat.le_zero.mp hq)
    subst hq'
    have hw : trailingSpaceRev (58 :: rest) = 0 := by
      simpa [trailingSpaceRev] using trailingSpaceRev_append_colon [] rest
    simp [stripLoop, stripLoop_of_width_zero trailingSpaceRev _ _ hw]
  | succ n ih =>
    intro q k hq
    rw [show n + 1 + k = (n + k) + 1 by omega, stripLoop, stripLoop,
      trailingSpaceRev_append_colon]
    by_cases hw : trailingSpaceRev q = 0
    · simp [hw]
    · have hle := trailingSpaceRev_le_length q
      simp only [hw, if_false]
      rw [List.drop_append_of_le_length hle]
      exact ih _ k (by rw [List.length_drop]; omega)

/-- The function `TrimRight` only reaches the text after the last colon. -/
theorem TrimRight_append_colon (h p : GoString) :
    TrimRight (h ++ 58 :: p) = h ++ 58 :: TrimRight p := by
  simp only [TrimRight, List.reverse_append, List.reverse_cons, List.append_assoc,
    List.singleton_append, List.length_append, List.length_cons]
  rw [show h.length + (p.length + 1) = p.reverse.length + (h.length + 1) by
    rw [List.length_reverse]; omega]
  rw [stripLoop_append_colon _ _ _ _ (le_refl _)]
  simp

/-- The function `Index` returns the offset of an occurrence that no other one
precedes. -/
theorem Index_first (sep : GoString) (hsep : sep ≠ []) (b : GoString) (t : GoString) :
    ¬ sep <:+: t ++ sep.dropLast → Index (t ++ sep ++ b) sep = some t.length := by
  induction t with
  | nil =>
    intro _
    cases hs : sep with
    | nil => exact absurd hs hsep
    | cons x s' =>
      have : (x :: s').isPrefixOf (x :: (s' ++ b)) = true :=
        List.isPrefixOf_iff_prefix.mpr ⟨b, rfl⟩
      simp [Index, this]
  | cons x t ih =>
    intro hmin
    have hmin' : ¬ sep <:+: t ++ sep.dropLast := fun h =>
      hmin (h.trans (List.infix_cons (List.infix_refl _)))
    have hnp : ¬ sep.isPrefixOf (x :: (t ++ sep ++ b)) = true := by
      intro hp
      have hp1 : sep <+: x :: (t ++ sep ++ b) := List.isPrefixOf_iff_prefix.mp hp
      have hp2 : x :: (t ++ sep.dropLast) <+: x :: (t ++ sep ++ b) := by
        rw [List.prefix_cons_inj]
        refine ⟨[sep.getLast hsep] ++ b, ?_⟩
        conv_rhs => rw [← List.dropLast_append_getLast hsep]
        simp
      have hlen : sep.length ≤ (x :: (t ++ sep.dropLast)).length := by
        simp only [List.length_cons, List.length_append, List.length_dropLast]
        have := List.length_pos.mpr hsep
        omega
      exact hmin (List.prefix_of_prefix_length_le hp1 hp2 hlen).isInfix
    rw [List.cons_append, List.cons_append, Index]
    simp only [hnp, if_false, ih hmin', Option.map_some', List.length_cons, Bool.false_eq_true]

/-- The text `resolveTxtRecordOnce` goes on with is the first alternative of the
record. -/
theorem targetString_of_IsFirstAlternative (t r : GoString) (h : IsFirstAlternative t r) :
    (if Contains r altSep = true then (Split r altSep)[0]? else some r) = some t := by
  rcases h with ⟨rfl, hno⟩ | ⟨b, rfl, hmin⟩
  · have hidx : Index r altSep = none := (Index_eq_none_iff altSep r).mpr hno
    simp [Contains, hidx]
  · have hidx : Index (t ++ altSep ++ b) altSep = some t.length :=
      Index_first altSep altSep_ne_nil b t (by simpa [altSep] using hmin)
    have hhead := Split_head altSep altSep_ne_nil _ _ hidx
    have hc : Contains (t ++ altSep ++ b) altSep = true := by
      rw [Contains, hidx]
      rfl
    rw [if_pos hc, hhead]
    simp

/-- One TXT attempt on a record whose first alternative `h ++ ":" ++ p` has no
leading white space: the target is `h` and the port text is `p` without its
trailing white space. -/
theorem resolveTxtRecordOnce_of_no_leading_space
    (LookupTXT : GoString → List GoString × Option Error) (name r h p : GoString)
    (rest : List GoString) (hcall : LookupTXT name = (r :: rest, none))
    (hfirst : IsFirstAlternative (h ++ 58 :: p) r) (hcolon : (58 : Nat) ∉ p)
    (hlead : leadingSpace (h ++ 58 :: p) = 0) :
    resolveTxtRecordOnce LookupTXT name =
      some (h, (parsePort (TrimRight p)).1, (parsePort (TrimRight p)).2) := by
  have htarget := targetString_of_IsFirstAlternative _ _ hfirst
  have hlast := LastIndexByte_append 58 p hcolon h
  have htrim : TrimSpace (h ++ 58 :: p) = h ++ 58 :: TrimRight p := by
    have h1 : TrimLeft (h ++ 58 :: p) = h ++ 58 :: p := stripLoop_of_width_zero _ _ _ hlead
    rw [TrimSpace, h1, TrimRight_append_colon]
  simp only [resolveTxtRecordOnce, hcall, htarget, hlast, htrim]
  simp [sliceTo, sliceFrom]

/-! ## The retry loops -/

/-- The sleep of an iteration is appended to the trace. -/
theorem sleepBefore_eq_append (i : Nat) (trace : List Event) :
    sleepBefore i trace = trace ++ sleepBefore i [] := by
  by_cases h : i > 0 <;> simp [sleepBefore, h]

/-- Attempts of a concatenation. -/
theorem attempts_append (a b : List Event) : attempts (a ++ b) = attempts a + attempts b := by
  simp [attempts]

/-- Sleeps of a concatenation. -/
theorem sleeps_append (a b : List Event) : sleeps (a ++ b) = sleeps a + sleeps b := by
  simp [sleeps]

/-- The sleep of an iteration is no attempt. -/
theorem attempts_sleepBefore (i : Nat) : attempts (sleepBefore i []) = 0 := by
  by_cases h : i > 0 <;> simp [sleepBefore, h, attempts, Event.isAttempt]

/-- Every iteration but the first sleeps once. -/
theorem sleeps_sleepBefore (i : Nat) : sleeps (sleepBefore i []) = if i > 0 then 1 else 0 := by
  by_cases h : i > 0 <;> simp [sleepBefore, h, sleeps]

/-- After the first iteration the sleep takes one unit of time. -/
theorem length_sleepBefore_succ (i : Nat) (trace : List Event) :
    (sleepBefore (i + 1) trace).length = trace.length + 1 := by
  simp [sleepBefore]

/-- One attempt. -/
theorem attempts_singleton (e : Event) (h : e.isAttempt = true) : attempts [e] = 1 := by
  simp [attempts, h]

/-- An attempt is no sleep. -/
theorem sleeps_singleton (e : Event) (h : e.isAttempt = true) : sleeps [e] = 0 := by
  cases e <;> simp_all [sleeps, Event.isAttempt]

/-- When every TXT attempt returns an error, the loop runs all its iterations and
returns what its last attempt returned. -/
theorem resolveTxtRecordLoop_all_fail (env : Env) (name : GoString)
    (hfail : ∀ time, ∃ r, resolveTxtRecordOnce (env.LookupTXT time) name = some r ∧
      r.2.2 ≠ none) :
    ∀ (n i : Nat) (last : GoString × Nat × Option Error) (trace : List Event),
      ∃ (r : GoString × Nat × Option Error) (new : List Event),
        resolveTxtRecordLoop env name (n + 1) i last trace = some (r, trace ++ new) ∧
        resolveTxtRecordOnce (env.LookupTXT ((sleepBefore i trace).length + 2 * n)) name =
          some r ∧
        attempts new = n + 1 ∧ sleeps new = (if i > 0 then n + 1 else n) ∧
        (i = 0 → ∃ tail, new = Event.TxtAttempt name :: tail) := by
  intro n
  induction n with
  | zero =>
    intro i last trace
    obtain ⟨r, hr, herr⟩ := hfail (sleepBefore i trace).length
    refine ⟨r, sleepBefore i [] ++ [Event.TxtAttempt name], ?_, by simpa using hr, ?_, ?_, ?_⟩
    · rw [resolveTxtRecordLoop]
      simp only [hr, herr, ne_eq, not_false_eq_true, if_true, resolveTxtRecordLoop]
      rw [sleepBefore_eq_append, List.append_assoc]
    · rw [attempts_append, attempts_sleepBefore, attempts_singleton (Event.TxtAttempt name) rfl]
    · rw [sleeps_append, sleeps_sleepBefore, sleeps_singleton (Event.TxtAttempt name) rfl]
      by_cases h : i > 0 <;> simp [h]
    · intro h0
      subst h0
      exact ⟨[], by simp [sleepBefore]⟩
  | succ n ih =>
    intro i last trace
    obtain ⟨r0, hr0, herr0⟩ := hfail (sleepBefore i trace).length
    obtain ⟨r, new, hloop, hlast, hatt, hsl, _⟩ :=
      ih (i + 1) r0 (sleepBefore i trace ++ [Event.TxtAttempt name])
    have hsl' : sleeps new = n + 1 := by simpa using hsl
    have htime : (sleepBefore (i + 1) (sleepBefore i trace ++ [Event.TxtAttempt name])).length
        + 2 * n = (sleepBefore i trace).length + 2 * (n + 1) := by
      rw [length_sleepBefore_succ]
      simp only [List.length_append, List.length_singleton]
      omega
    refine ⟨r, sleepBefore i [] ++ [Event.TxtAttempt name] ++ new, ?_, ?_, ?_, ?_, ?_⟩
    · rw [resolveTxtRecordLoop]
      simp only [hr0, herr0, ne_eq, not_false_eq_true, if_true]
      rw [hloop, sleepBefore_eq_append]
      simp
    · rw [← htime]
      exact hlast
    · rw [attempts_append, attempts_append, attempts_sleepBefore, attempts_singleton (Event.TxtAttempt name) rfl,
        hatt]
      omega
    · rw [sleeps_append, sleeps_append, sleeps_sleepBefore, sleeps_singleton (Event.TxtAttempt name) rfl, hsl']
      by_cases h : i > 0
      · simp [h]
        omega
      · simp [h]
    · intro h0
      subst h0
      exact ⟨new, by simp [sleepBefore]⟩

/-- When every SRV attempt returns an error, the loop runs all its iterations and
returns what its last attempt returned. -/
theorem resolveSrvRecordLoop_all_fail (env : Env) (name : GoString)
    (hfail : ∀ time, (resolveSrvRecordOnce (env.LookupSRV time) name).2.2 ≠ none) :
    ∀ (n i : Nat) (last : GoString × Nat × Option Error) (trace : List Event),
      ∃ (new : List Event),
        resolveSrvRecordLoop env name (n + 1) i last trace =
          (resolveSrvRecordOnce (env.LookupSRV ((sleepBefore i trace).length + 2 * n)) name,
            trace ++ new) ∧
        attempts new = n + 1 ∧ sleeps new = (if i > 0 then n + 1 else n) ∧
        (i = 0 → ∃ tail, new = Event.SrvAttempt name :: tail) := by
  intro n
  induction n with
  | zero =>
    intro i last trace
    have herr := hfail (sleepBefore i trace).length
    refine ⟨sleepBefore i [] ++ [Event.SrvAttempt name], ?_, ?_, ?_, ?_⟩
    · rw [resolveSrvRecordLoop]
      simp only [herr, ne_eq, not_false_eq_true, if_true, resolveSrvRecordLoop]
      rw [sleepBefore_eq_append, List.append_assoc]
      rfl
    · rw [attempts_append, attempts_sleepBefore, attempts_singleton (Event.SrvAttempt name) rfl]
    · rw [sleeps_append, sleeps_sleepBefore, sleeps_singleton (Event.SrvAttempt name) rfl]
      by_cases h : i > 0 <;> simp [h]
    · intro h0
      subst h0
      exact ⟨[], by simp [sleepBefore]⟩
  | succ n ih =>
    intro i last trace
    have herr0 := hfail (sleepBefore i trace).length
    obtain ⟨new, hloop, hatt, hsl, _⟩ :=
      ih (i + 1) (resolveSrvRecordOnce (env.LookupSRV (sleepBefore i trace).length) name)
        (sleepBefore i trace ++ [Event.SrvAttempt name])
    have hsl' : sleeps new = n + 1 := by simpa using hsl
    have htime : (sleepBefore (i + 1) (sleepBefore i trace ++ [Event.SrvAttempt name])).length
        + 2 * n = (sleepBefore i trace).length + 2 * (n + 1) := by
      rw [length_sleepBefore_succ]
      simp only [List.length_append, List.length_singleton]
      omega
    refine ⟨sleepBefore i [] ++ [Event.SrvAttempt name] ++ new, ?_, ?_, ?_, ?_⟩
    · rw [resolveSrvRecordLoop]
      simp only [herr0, ne_eq, not_false_eq_true, if_true]
      rw [hloop, htime, sleepBefore_eq_append]
      simp
    · rw [attempts_append, attempts_append, attempts_sleepBefore,
        attempts_singleton (Event.SrvAttempt name) rfl, hatt]
      omega
    · rw [sleeps_append, sleeps_append, sleeps_sleepBefore,
        sleeps_singleton (Event.SrvAttempt name) rfl, hsl']
      by_cases h : i > 0
      · simp [h]
        omega
      · simp [h]
    · intro h0
      subst h0
      exact ⟨new, by simp [sleepBefore]⟩

/-- When every hostname attempt fails with an error the loop retries, the loop runs
all its iterations. -/
theorem resolveHostnameLoop_all_retry (env : Env) (name : GoString)
    (hretry : ∀ time,
      (resolveHostnameOnce (env.GetAddrInfoW time) name).2 = some WSATRY_AGAIN ∨
      ((resolveHostnameOnce (env.GetAddrInfoW time) name).2 = some WSAHOST_NOT_FOUND ∧
        env.StartedAtBoot = true ∧ env.internetGetConnectedState (time + 1) = false)) :
    ∀ (n i : Nat) (last : GoString × Option Error) (trace : List Event),
      ∃ (new : List Event),
        (resolveHostnameLoop env name (n + 1) i last trace).2 = trace ++ new ∧
        attempts new = n + 1 ∧ sleeps new = (if i > 0 then n + 1 else n) ∧
        (i = 0 → ∃ tail, new = Event.HostnameAttempt name :: tail) := by
  have hstep : ∀ (n i : Nat) (last : GoString × Option Error) (trace : List Event),
      ∃ (extra : List Event) (r : GoString × Option Error),
        resolveHostnameLoop env name (n + 1) i last trace =
          resolveHostnameLoop env name n (i + 1) r
            (sleepBefore i trace ++ [Event.HostnameAttempt name] ++ extra) ∧
        attempts extra = 0 ∧ sleeps extra = 0 := by
    intro n i last trace
    rcases hretry (sleepBefore i trace).length with h | ⟨h, hboot, hoff⟩
    · refine ⟨[], resolveHostnameOnce (env.GetAddrInfoW (sleepBefore i trace).length) name,
        ?_, rfl, rfl⟩
      rw [resolveHostnameLoop]
      simp [h]
    · refine ⟨[Event.ConnectedState],
        resolveHostnameOnce (env.GetAddrInfoW (sleepBefore i trace).length) name, ?_, rfl, rfl⟩
      rw [resolveHostnameLoop]
      have hne : WSAHOST_NOT_FOUND ≠ WSATRY_AGAIN := by decide
      simp [h, hne, hboot, hoff]
  intro n
  induction n with
  | zero =>
    intro i last trace
    obtain ⟨extra, r, hloop, hatt, hsl⟩ := hstep 0 i last trace
    refine ⟨sleepBefore i [] ++ [Event.HostnameAttempt name] ++ extra, ?_, ?_, ?_, ?_⟩
    · rw [hloop, resolveHostnameLoop, sleepBefore_eq_append]
      simp
    · rw [attempts_append, attempts_append, attempts_sleepBefore,
        attempts_singleton (Event.HostnameAttempt name) rfl, hatt]
    · rw [sleeps_append, sleeps_append, sleeps_sleepBefore,
        sleeps_singleton (Event.HostnameAttempt name) rfl, hsl]
      by_cases h : i > 0 <;> simp [h]
    · intro h0
      subst h0
      exact ⟨extra, by simp [sleepBefore]⟩
  | succ n ih =>
    intro i last trace
    obtain ⟨extra, r, hloop, hatt, hsl⟩ := hstep (n + 1) i last trace
    obtain ⟨new, hrest, hatt', hsl', _⟩ :=
      ih (i + 1) r (sleepBefore i trace ++ [Event.HostnameAttempt name] ++ extra)
    have hsl'' : sleeps new = n + 1 := by simpa using hsl'
    refine ⟨sleepBefore i [] ++ [Event.HostnameAttempt name] ++ extra ++ new, ?_, ?_, ?_, ?_⟩
    · rw [hloop, hrest, sleepBefore_eq_append]
      simp
    · rw [attempts_append, attempts_append, attempts_append, attempts_sleepBefore,
        attempts_singleton (Event.HostnameAttempt name) rfl, hatt, hatt']
      omega
    · rw [sleeps_append, sleeps_append, sleeps_append, sleeps_sleepBefore,
        sleeps_singleton (Event.HostnameAttempt name) rfl, hsl, hsl'']
      by_cases h : i > 0
      · simp [h]
        omega
      · simp [h]
    · intro h0
      subst h0
      exact ⟨extra ++ new, by simp [sleepBefore]⟩

/-! ## TXT records and the attempt budget -/

/-- C6, on the record `host1:1234||host2:5678`: target `host1`, port 1234, no error. -/
theorem resolveTxtRecordOnce_ignores_alternatives_witness :
    (∃ a b : GoString, bytes "host1:1234||host2:5678" = a ++ altSep ++ b ∧
      ¬ altSep <:+: a ++ [124] ∧
      ∀ (LookupTXT' : GoString → List GoString × Option Error) (name' : GoString)
        (rest' : List GoString), LookupTXT' name' = (a :: rest', none) →
        resolveTxtRecordOnce (fun _ => ([bytes "host1:1234||host2:5678"], none)) (bytes "b") =
          resolveTxtRecordOnce LookupTXT' name') ∧
    resolveTxtRecordOnce (fun _ => ([bytes "host1:1234||host2:5678"], none)) (bytes "b") =
      some (bytes "host1", 1234, none) :=
  ⟨resolveTxtRecordOnce_ignores_alternatives
      (fun _ => ([bytes "host1:1234||host2:5678"], none)) (bytes "b")
      (bytes "host1:1234||host2:5678") [] rfl (by decide),
    by decide⟩

/-- C7, on the record `2001:db8::1:443`: target `2001:db8::1`, port 443. -/
theorem resolveTxtRecordOnce_splits_at_last_colon_witness :
    resolveTxtRecordOnce (fun _ => ([bytes "2001:db8::1:443"], none)) (bytes "b") =
      some (bytes "2001:db8::1", 443, none) :=
  resolveTxtRecordOnce_splits_at_last_colon
    (fun _ => ([bytes "2001:db8::1:443"], none)) (bytes "b") (bytes "2001:db8::1") (bytes "443")
    [] rfl (by decide) (by decide) (by decide) (by decide) (by decide) (by decide)

/-- C8 fails on the record `host`, which has no `:`: the target returned is not the
trimmed record. -/
theorem resolveTxtRecordOnce_without_colon_drops_record :
    (58 : Nat) ∉ bytes "host" ∧
    resolveTxtRecordOnce (fun _ => ([bytes "host"], none)) (bytes "b") ≠
      some (TrimSpace (bytes "host"), 0, none) := by
  decide

/-- C8 as amended, on the record `host`. -/
theorem resolveTxtRecordOnce_without_colon_witness :
    resolveTxtRecordOnce (fun _ => ([bytes "host"], none)) (bytes "b") = some ([], 0, none) :=
  resolveTxtRecordOnce_without_colon (fun _ => ([bytes "host"], none)) (bytes "b")
    (bytes "host") [] rfl (by decide)

/-- C9 fails on the record `h:80 `: the text after its last `:` is `80 `, which is not
an unsigned 16-bit decimal, and the attempt returns port 80 and no error. -/
theorem resolveTxtRecordOnce_trailing_space_port_accepted :
    bytes "h:80 " = bytes "h" ++ 58 :: bytes "80 " ∧ (58 : Nat) ∉ bytes "80 " ∧
    ¬ altSep <:+: bytes "h:80 " ∧ validPortText (bytes "80 ") = false ∧
    resolveTxtRecordOnce (fun _ => ([bytes "h:80 "], none)) (bytes "b") =
      some (bytes "h", 80, none) := by
  decide

/-- C9, as amended: on a first TXT record whose first alternative `h ++ ":" ++ p`,
`p` without `:`, has no leading white space and whose port text `p`, without its
trailing white space, is not an unsigned 16-bit decimal, one TXT attempt returns
the parse error of that text, with target `h` and port 0; and when every attempt
sees such a record, `resolveTxtRecord` makes `maxTries` attempts and returns what
the last of them returned, a parse error. -/
theorem resolveTxtRecord_malformed_port (env : Env) (name : GoString) :
    (∀ (LookupTXT : GoString → List GoString × Option Error) (r h p : GoString)
        (rest : List GoString),
        LookupTXT name = (r :: rest, none) → IsFirstAlternative (h ++ 58 :: p) r →
        (58 : Nat) ∉ p → leadingSpace (h ++ 58 :: p) = 0 →
        validPortText (TrimRight p) = false →
        resolveTxtRecordOnce LookupTXT name =
          some (h, 0, some (Error.ParseError (TrimRight p)))) ∧
    ((∀ time, ∃ (r h p : GoString) (rest : List GoString),
        env.LookupTXT time name = (r :: rest, none) ∧ IsFirstAlternative (h ++ 58 :: p) r ∧
        (58 : Nat) ∉ p ∧ leadingSpace (h ++ 58 :: p) = 0 ∧
        validPortText (TrimRight p) = false) →
      ∀ trace : List Event, ∃ (h p : GoString) (tail : List Event),
        resolveTxtRecord env name trace =
          some ((h, 0, some (Error.ParseError (TrimRight p))), trace ++ tail) ∧
        resolveTxtRecordOnce (env.LookupTXT (trace.length + 2 * (maxTries env - 1))) name =
          some (h, 0, some (Error.ParseError (TrimRight p))) ∧
        attempts tail = maxTries env) := by
  have hone : ∀ (LookupTXT : GoString → List GoString × Option Error) (r h p : GoString)
      (rest : List GoString),
      LookupTXT name = (r :: rest, none) → IsFirstAlternative (h ++ 58 :: p) r →
      (58 : Nat) ∉ p → leadingSpace (h ++ 58 :: p) = 0 →
      validPortText (TrimRight p) = false →
      resolveTxtRecordOnce LookupTXT name =
        some (h, 0, some (Error.ParseError (TrimRight p))) := by
    intro LookupTXT r h p rest hcall hfirst hcolon hlead hbad
    rw [resolveTxtRecordOnce_of_no_leading_space LookupTXT name r h p rest hcall hfirst hcolon
      hlead, parsePort_of_invalid _ hbad]
  refine ⟨hone, ?_⟩
  intro hall trace
  have hfail : ∀ time, ∃ r, resolveTxtRecordOnce (env.LookupTXT time) name = some r ∧
      r.2.2 ≠ none := by
    intro time
    obtain ⟨r, h, p, rest, hcall, hfirst, hcolon, hlead, hbad⟩ := hall time
    exact ⟨_, hone _ r h p rest hcall hfirst hcolon hlead hbad, by simp⟩
  obtain ⟨m, hm⟩ : ∃ m, maxTries env = m + 1 := by
    cases hb : env.StartedAtBoot <;> simp [maxTries, hb]
  obtain ⟨r, new, hloop, hlast, hatt, _, _⟩ :=
    resolveTxtRecordLoop_all_fail env name hfail m 0 ([], 0, none) trace
  obtain ⟨r', h, p, rest, hcall, hfirst, hcolon, hlead, hbad⟩ :=
    hall ((sleepBefore 0 trace).length + 2 * m)
  have hr := hone _ r' h p rest hcall hfirst hcolon hlead hbad
  rw [hlast, Option.some.injEq] at hr
  subst hr
  refine ⟨h, p, new, ?_, ?_, ?_⟩
  · rw [resolveTxtRecord, hm]
    exact hloop
  · rw [hm]
    simpa [sleepBefore] using hlast
  · rw [hm]
    exact hatt

/-- C9 as amended, on the record `host:http` seen by every attempt. -/
theorem resolveTxtRecord_malformed_port_witness :
    resolveTxtRecordOnce (failingEnv.LookupTXT 0) (bytes "b") =
      some (bytes "host", 0, some (Error.ParseError (bytes "http"))) ∧
    ∃ (h p : GoString) (tail : List Event),
      resolveTxtRecord failingEnv (bytes "b") [] =
        some ((h, 0, some (Error.ParseError (TrimRight p))), [] ++ tail) ∧
      resolveTxtRecordOnce
          (failingEnv.LookupTXT (([] : List Event).length + 2 * (maxTries failingEnv - 1)))
          (bytes "b") =
        some (h, 0, some (Error.ParseError (TrimRight p))) ∧
      attempts tail = maxTries failingEnv :=
  ⟨(resolveTxtRecord_malformed_port failingEnv (bytes "b")).1 (failingEnv.LookupTXT 0)
      (bytes "host:http") (bytes "host") (bytes "http") [] rfl
      (Or.inl ⟨rfl, by decide⟩) (by decide) (by decide) (by decide),
    (resolveTxtRecord_malformed_port failingEnv (bytes "b")).2
      (fun _ => ⟨bytes "host:http", bytes "host", bytes "http", [], rfl,
        Or.inl ⟨rfl, by decide⟩, by decide, by decide, by decide⟩) []⟩

/-- C10: the attempt budget is 40 for a process started at boot and 10 otherwise; a
retry loop whose every attempt fails with an error it retries starts with an
attempt, makes exactly `maxTries` attempts and sleeps 4 seconds exactly
`maxTries - 1` times. This holds for the loop of `resolveHostname`, the SRV loop of
`resolveSrvRecord` and the TXT loop of `resolveTxtRecord`. -/
theorem retry_loops_budget (env : Env) (name : GoString) (trace : List Event) :
    maxTries env = (if env.StartedAtBoot = true then 40 else 10) ∧
    ((∀ time,
        (resolveHostnameOnce (env.GetAddrInfoW time) name).2 = some WSATRY_AGAIN ∨
        ((resolveHostnameOnce (env.GetAddrInfoW time) name).2 = some WSAHOST_NOT_FOUND ∧
          env.StartedAtBoot = true ∧ env.internetGetConnectedState (time + 1) = false)) →
      ∃ tail : List Event,
        (resolveHostname env name trace).2 = trace ++ Event.HostnameAttempt name :: tail ∧
        attempts (Event.HostnameAttempt name :: tail) = maxTries env ∧
        sleeps (Event.HostnameAttempt name :: tail) = maxTries env - 1) ∧
    ((∀ time, (resolveSrvRecordOnce (env.LookupSRV time) name).2.2 ≠ none) →
      ∃ tail : List Event,
        (resolveSrvRecordLoop env name (maxTries env) 0 ([], 0, none) trace).2 =
          trace ++ Event.SrvAttempt name :: tail ∧
        attempts (Event.SrvAttempt name :: tail) = maxTries env ∧
        sleeps (Event.SrvAttempt name :: tail) = maxTries env - 1) ∧
    ((∀ time, ∃ r, resolveTxtRecordOnce (env.LookupTXT time) name = some r ∧ r.2.2 ≠ none) →
      ∃ (r : GoString × Nat × Option Error) (tail : List Event),
        resolveTxtRecord env name trace = some (r, trace ++ Event.TxtAttempt name :: tail) ∧
        attempts (Event.TxtAttempt name :: tail) = maxTries env ∧
        sleeps (Event.TxtAttempt name :: tail) = maxTries env - 1) := by
  obtain ⟨m, hm⟩ : ∃ m, maxTries env = m + 1 := by
    cases hb : env.StartedAtBoot <;> simp [maxTries, hb]
  refine ⟨?_, ?_, ?_, ?_⟩
  · cases hb : env.StartedAtBoot <;> simp [maxTries, hb]
  · intro hretry
    obtain ⟨new, hloop, hatt, hsl, hfirst⟩ :=
      resolveHostnameLoop_all_retry env name hretry m 0 ([], none) trace
    obtain ⟨tail, rfl⟩ := hfirst rfl
    refine ⟨tail, ?_, ?_, ?_⟩
    · rw [resolveHostname, hm]
      exact hloop
    · rw [hm]
      exact hatt
    · rw [hm]
      simpa using hsl
  · intro hfail
    obtain ⟨new, hloop, hatt, hsl, hfirst⟩ :=
      resolveSrvRecordLoop_all_fail env name hfail m 0 ([], 0, none) trace
    obtain ⟨tail, rfl⟩ := hfirst rfl
    refine ⟨tail, ?_, ?_, ?_⟩
    · rw [hm, hloop]
    · rw [hm]
      exact hatt
    · rw [hm]
      simpa using hsl
  · intro hfail
    obtain ⟨r, new, hloop, _, hatt, hsl, hfirst⟩ :=
      resolveTxtRecordLoop_all_fail env name hfail m 0 ([], 0, none) trace
    obtain ⟨tail, rfl⟩ := hfirst rfl
    refine ⟨r, tail, ?_, ?_, ?_⟩
    · rw [resolveTxtRecord, hm]
      exact hloop
    · rw [hm]
      exact hatt
    · rw [hm]
      simpa using hsl

/-- C10, for a process started at boot whose lookups always fail: 40 attempts. -/
theorem retry_loops_budget_witness :
    maxTries failingEnv = 40 ∧
    (∃ tail : List Event,
      (resolveHostname failingEnv (bytes "h") []).2 =
        [] ++ Event.HostnameAttempt (bytes "h") :: tail ∧
      attempts (Event.HostnameAttempt (bytes "h") :: tail) = maxTries failingEnv ∧
      sleeps (Event.HostnameAttempt (bytes "h") :: tail) = maxTries failingEnv - 1) ∧
    (∃ tail : List Event,
      (resolveSrvRecordLoop failingEnv (bytes "h") (maxTries failingEnv) 0 ([], 0, none) []).2 =
        [] ++ Event.SrvAttempt (bytes "h") :: tail ∧
      attempts (Event.SrvAttempt (bytes "h") :: tail) = maxTries failingEnv ∧
      sleeps (Event.SrvAttempt (bytes "h") :: tail) = maxTries failingEnv - 1) ∧
    (∃ (r : GoString × Nat × Option Error) (tail : List Event),
      resolveTxtRecord failingEnv (bytes "h") [] =
        some (r, [] ++ Event.TxtAttempt (bytes "h") :: tail) ∧
      attempts (Event.TxtAttempt (bytes "h") :: tail) = maxTries failingEnv ∧
      sleeps (Event.TxtAttempt (bytes "h") :: tail) = maxTries failingEnv - 1) :=
  ⟨(retry_loops_budget failingEnv (bytes "h") []).1,
    (retry_loops_budget failingEnv (bytes "h") []).2.1 (fun _ => Or.inr ⟨rfl, rfl, rfl⟩),
    (retry_loops_budget failingEnv (bytes "h") []).2.2.1
      (fun _ => by simp [failingEnv, resolveSrvRecordOnce]),
    (retry_loops_budget failingEnv (bytes "h") []).2.2.2
      (fun _ => ⟨(bytes "host", 0, some (Error.ParseError (bytes "http"))), rfl,
        by simp⟩)⟩

/-! ## The result of a hostname attempt and of the hostname loop -/

/-- The scan returns the string of a valid address when it returns no error, and
the empty string when it returns an error. -/
theorem scanAddrinfo_result (records : List AddrinfoW) :
    ∀ (v6 : netip.Addr),
      ((scanAddrinfo records v6).2 = none →
        ∃ a : netip.Addr, a.IsValid = true ∧ (scanAddrinfo records v6).1 = a.String) ∧
      ((scanAddrinfo records v6).2 ≠ none → (scanAddrinfo records v6).1 = []) := by
  induction records with
  | nil =>
    intro v6
    by_cases hv : v6.IsValid = true
    · simp only [scanAddrinfo, hv, if_true]
      exact ⟨fun _ => ⟨v6, hv, rfl⟩, fun h => absurd rfl h⟩
    · simp [scanAddrinfo, hv]
  | cons r rest ih =>
    intro v6
    rw [scanAddrinfo]
    by_cases hfam : r.Family ≠ AF_INET ∧ r.Family ≠ AF_INET6
    · rw [if_pos hfam]
      exact ih v6
    · rw [if_neg hfam]
      by_cases h4 : r.Addr.Is4 = true
      · rw [if_pos h4]
        refine ⟨fun _ => ⟨r.Addr, ?_, rfl⟩, fun h => absurd rfl h⟩
        cases hr : r.Addr <;> simp_all [netip.Addr.Is4, netip.Addr.IsValid]
      · rw [if_neg h4]
        split
        · exact ih _
        · exact ih _

/-- One hostname attempt returns the string of a valid address when it returns no
error, and the empty string when it returns an error. -/
theorem resolveHostnameOnce_result
    (GetAddrInfoW : GoString → List AddrinfoW × Option Error) (name : GoString) :
    ((resolveHostnameOnce GetAddrInfoW name).2 = none →
      ∃ a : netip.Addr, a.IsValid = true ∧ (resolveHostnameOnce GetAddrInfoW name).1 = a.String) ∧
    ((resolveHostnameOnce GetAddrInfoW name).2 ≠ none →
      (resolveHostnameOnce GetAddrInfoW name).1 = []) := by
  rw [resolveHostnameOnce]
  by_cases h0 : 0 ∈ name
  · simp [h0]
  · rw [if_neg h0]
    rcases hcall : GetAddrInfoW name with ⟨records, err⟩
    cases err with
    | some e => simp
    | none =>
      cases records with
      | nil => simp
      | cons r rest => exact scanAddrinfo_result (r :: rest) netip.Addr.zero

/-- One iteration of the hostname loop: an attempt, perhaps a connectivity query,
and then either the next iteration or the return of what the attempt returned. -/
theorem resolveHostnameLoop_step (env : Env) (name : GoString) (n i : Nat)
    (last : GoString × Option Error) (trace : List Event) :
    ∃ extra : List Event, attempts extra = 0 ∧ sleeps extra = 0 ∧
      ((resolveHostnameOnce (env.GetAddrInfoW (sleepBefore i trace).length) name).2 ≠ none ∧
        resolveHostnameLoop env name (n + 1) i last trace =
          resolveHostnameLoop env name n (i + 1)
            (resolveHostnameOnce (env.GetAddrInfoW (sleepBefore i trace).length) name)
            (sleepBefore i trace ++ [Event.HostnameAttempt name] ++ extra) ∨
       resolveHostnameLoop env name (n + 1) i last trace =
          (resolveHostnameOnce (env.GetAddrInfoW (sleepBefore i trace).length) name,
            sleepBefore i trace ++ [Event.HostnameAttempt name] ++ extra)) := by
  rw [resolveHostnameLoop]
  cases herr : (resolveHostnameOnce (env.GetAddrInfoW (sleepBefore i trace).length) name).2 with
  | none => exact ⟨[], rfl, rfl, Or.inr (by simp)⟩
  | some err =>
    by_cases h1 : err = WSATRY_AGAIN
    · exact ⟨[], rfl, rfl, Or.inl ⟨by simp, by simp [h1]⟩⟩
    · by_cases h2 : err = WSAHOST_NOT_FOUND ∧ env.StartedAtBoot = true
      · have hne : WSAHOST_NOT_FOUND ≠ WSATRY_AGAIN := by decide
        by_cases h3 : env.internetGetConnectedState ((sleepBefore i trace).length + 1) = false
        · exact ⟨[Event.ConnectedState], rfl, rfl,
            Or.inl ⟨by simp, by simp [h2.1, h2.2, hne, h3]⟩⟩
        · exact ⟨[Event.ConnectedState], rfl, rfl, Or.inr (by simp [h2.1, h2.2, hne, h3])⟩
      · exact ⟨[], rfl, rfl, Or.inr (by simp [h1, h2])⟩

/-- The hostname loop extends the trace, by at most one attempt for each iteration
and one sleep for each iteration but the first; its first new events are the
sleep of the iteration and an attempt. -/
theorem resolveHostnameLoop_trace (env : Env) (name : GoString) :
    ∀ (n i : Nat) (last : GoString × Option Error) (trace : List Event),
      ∃ new : List Event,
        (resolveHostnameLoop env name n i last trace).2 = trace ++ new ∧
        attempts new ≤ n ∧ sleeps new ≤ (if i > 0 then n else n - 1) ∧
        (0 < n → ∃ tail, new = sleepBefore i [] ++ Event.HostnameAttempt name :: tail) := by
  intro n
  induction n with
  | zero =>
    intro i last trace
    exact ⟨[], by simp [resolveHostnameLoop], by simp [attempts], by simp [sleeps],
      fun h => absurd h (by decide)⟩
  | succ n ih =>
    intro i last trace
    obtain ⟨extra, hatt, hsl, hstep⟩ := resolveHostnameLoop_step env name n i last trace
    have hA := attempts_singleton (Event.HostnameAttempt name) rfl
    have hS := sleeps_singleton (Event.HostnameAttempt name) rfl
    have hsb := sleeps_sleepBefore i
    rcases hstep with ⟨_, hloop⟩ | hloop
    · obtain ⟨new, htr, hatt', hsl', _⟩ := ih (i + 1)
        (resolveHostnameOnce (env.GetAddrInfoW (sleepBefore i trace).length) name)
        (sleepBefore i trace ++ [Event.HostnameAttempt name] ++ extra)
      refine ⟨sleepBefore i [] ++ [Event.HostnameAttempt name] ++ extra ++ new, ?_, ?_, ?_, ?_⟩
      · rw [hloop, htr, sleepBefore_eq_append]
        simp
      · rw [attempts_append, attempts_append, attempts_append, attempts_sleepBefore, hA, hatt]
        omega
      · rw [sleeps_append, sleeps_append, sleeps_append, hsb, hS, hsl]
        simp only [Nat.succ_pos, if_true, gt_iff_lt] at hsl'
        by_cases h : i > 0
        · simp only [h, if_true]
          omega
        · simp only [h, if_false]
          omega
      · intro _
        exact ⟨extra ++ new, by simp⟩
    · refine ⟨sleepBefore i [] ++ [Event.HostnameAttempt name] ++ extra, ?_, ?_, ?_, ?_⟩
      · rw [hloop, sleepBefore_eq_append]
        simp
      · rw [attempts_append, attempts_append, attempts_sleepBefore, hA, hatt]
        omega
      · rw [sleeps_append, sleeps_append, hsb, hS, hsl]
        by_cases h : i > 0
        · simp only [h, if_true]
          omega
        · simp only [h, if_false]
          omega
      · intro _
        exact ⟨extra, by simp⟩

/-- The hostname loop returns what its last attempt returned. -/
theorem resolveHostnameLoop_last_attempt (env : Env) (name : GoString) :
    ∀ (n i : Nat) (last : GoString × Option Error) (trace : List Event),
      ∃ (mid post : List Event),
        (resolveHostnameLoop env name (n + 1) i last trace).2 =
          trace ++ mid ++ Event.HostnameAttempt name :: post ∧
        attempts post = 0 ∧
        (resolveHostnameLoop env name (n + 1) i last trace).1 =
          resolveHostnameOnce (env.GetAddrInfoW (trace ++ mid).length) name := by
  intro n
  induction n with
  | zero =>
    intro i last trace
    obtain ⟨extra, hatt, _, hstep⟩ := resolveHostnameLoop_step env name 0 i last trace
    refine ⟨sleepBefore i [], extra, ?_, hatt, ?_⟩
    · rcases hstep with ⟨_, hloop⟩ | hloop
      · rw [hloop, resolveHostnameLoop, sleepBefore_eq_append]
        simp
      · rw [hloop, sleepBefore_eq_append]
        simp
    · rw [← sleepBefore_eq_append]
      rcases hstep with ⟨_, hloop⟩ | hloop
      · rw [hloop, resolveHostnameLoop]
      · rw [hloop]
  | succ n ih =>
    intro i last trace
    obtain ⟨extra, hatt, _, hstep⟩ := resolveHostnameLoop_step env name (n + 1) i last trace
    rcases hstep with ⟨_, hloop⟩ | hloop
    · obtain ⟨mid, post, htr, hpost, hres⟩ := ih (i + 1)
        (resolveHostnameOnce (env.GetAddrInfoW (sleepBefore i trace).length) name)
        (sleepBefore i trace ++ [Event.HostnameAttempt name] ++ extra)
      refine ⟨sleepBefore i [] ++ [Event.HostnameAttempt name] ++ extra ++ mid, post, ?_, hpost,
        ?_⟩
      · rw [hloop, htr, sleepBefore_eq_append]
        simp
      · rw [hloop, hres, sleepBefore_eq_append]
        simp
    · refine ⟨sleepBefore i [], extra, ?_, hatt, ?_⟩
      · rw [hloop, sleepBefore_eq_append]
        simp
      · rw [hloop, ← sleepBefore_eq_append]

/-! ## The SRV and TXT loops -/

/-- The two tests that end an iteration of the SRV and TXT loops amount to one:
the loop stops when the outcome is usable. -/
theorem retry_condition (r : GoString × Nat × Option Error) {α : Type} (stop again : α) :
    (if r.2.2 ≠ none then again else if r.1 ≠ [] ∧ r.2.1 ≠ 0 then stop else again) =
      if isUsable r = true then stop else again := by
  obtain ⟨target, port, err⟩ := r
  cases err <;> cases target <;> by_cases hp : port = 0 <;> simp [isUsable, hp]

/-- One iteration of the TXT loop. -/
theorem resolveTxtRecordLoop_step (env : Env) (name : GoString) (n i : Nat)
    (last : GoString × Nat × Option Error) (trace : List Event) :
    resolveTxtRecordLoop env name (n + 1) i last trace =
      match resolveTxtRecordOnce (env.LookupTXT (sleepBefore i trace).length) name with
      | none => none
      | some r =>
        if isUsable r = true then some (r, sleepBefore i trace ++ [Event.TxtAttempt name])
        else resolveTxtRecordLoop env name n (i + 1) r
          (sleepBefore i trace ++ [Event.TxtAttempt name]) := by
  rw [resolveTxtRecordLoop]
  cases resolveTxtRecordOnce (env.LookupTXT (sleepBefore i trace).length) name with
  | none => rfl
  | some r => exact retry_condition r _ _

/-- One iteration of the SRV loop. -/
theorem resolveSrvRecordLoop_step (env : Env) (name : GoString) (n i : Nat)
    (last : GoString × Nat × Option Error) (trace : List Event) :
    resolveSrvRecordLoop env name (n + 1) i last trace =
      if isUsable (resolveSrvRecordOnce (env.LookupSRV (sleepBefore i trace).length) name) = true
      then (resolveSrvRecordOnce (env.LookupSRV (sleepBefore i trace).length) name,
        sleepBefore i trace ++ [Event.SrvAttempt name])
      else resolveSrvRecordLoop env name n (i + 1)
        (resolveSrvRecordOnce (env.LookupSRV (sleepBefore i trace).length) name)
        (sleepBefore i trace ++ [Event.SrvAttempt name]) := by
  rw [resolveSrvRecordLoop]
  exact retry_condition _ _ _

/-- The TXT loop extends the trace, by at most one attempt for each iteration and
one sleep for each iteration but the first. -/
theorem resolveTxtRecordLoop_trace (env : Env) (name : GoString) :
    ∀ (n i : Nat) (last r : GoString × Nat × Option Error) (trace tr : List Event),
      resolveTxtRecordLoop env name n i last trace = some (r, tr) →
      ∃ new : List Event, tr = trace ++ new ∧ attempts new ≤ n ∧
        sleeps new ≤ (if i > 0 then n else n - 1) := by
  intro n
  induction n with
  | zero =>
    intro i last r trace tr h
    simp only [resolveTxtRecordLoop, Option.some.injEq, Prod.mk.injEq] at h
    exact ⟨[], by simp [h.2], by simp [attempts], by simp [sleeps]⟩
  | succ n ih =>
    intro i last r trace tr h
    rw [resolveTxtRecordLoop_step] at h
    have hA := attempts_singleton (Event.TxtAttempt name) rfl
    have hS := sleeps_singleton (Event.TxtAttempt name) rfl
    have hsb := sleeps_sleepBefore i
    cases hr : resolveTxtRecordOnce (env.LookupTXT (sleepBefore i trace).length) name with
    | none => simp [hr] at h
    | some r0 =>
      simp only [hr] at h
      by_cases hu : isUsable r0 = true
      · simp only [hu, if_true, Option.some.injEq, Prod.mk.injEq] at h
        refine ⟨sleepBefore i [] ++ [Event.TxtAttempt name], ?_, ?_, ?_⟩
        · rw [← h.2, sleepBefore_eq_append, List.append_assoc]
        · rw [attempts_append, attempts_sleepBefore, hA]
          omega
        · rw [sleeps_append, hsb, hS]
          by_cases hi : i > 0
          · simp only [hi, if_true]
            omega
          · simp only [hi, if_false]
            omega
      · simp only [hu, if_false, Bool.false_eq_true] at h
        obtain ⟨new, htr, hatt, hsl⟩ := ih (i + 1) r0 r _ tr h
        simp only [Nat.succ_pos, if_true, gt_iff_lt] at hsl
        refine ⟨sleepBefore i [] ++ [Event.TxtAttempt name] ++ new, ?_, ?_, ?_⟩
        · rw [htr, sleepBefore_eq_append]
          simp
        · rw [attempts_append, attempts_append, attempts_sleepBefore, hA]
          omega
        · rw [sleeps_append, sleeps_append, hsb, hS]
          by_cases hi : i > 0
          · simp only [hi, if_true]
            omega
          · simp only [hi, if_false]
            omega

/-- The SRV loop extends the trace, by at most one attempt for each iteration and
one sleep for each iteration but the first. -/
theorem resolveSrvRecordLoop_trace (env : Env) (name : GoString) :
    ∀ (n i : Nat) (last : GoString × Nat × Option Error) (trace : List Event),
      ∃ new : List Event,
        (resolveSrvRecordLoop env name n i last trace).2 = trace ++ new ∧ attempts new ≤ n ∧
        sleeps new ≤ (if i > 0 then n else n - 1) := by
  intro n
  induction n with
  | zero =>
    intro i last trace
    exact ⟨[], by simp [resolveSrvRecordLoop], by simp [attempts], by simp [sleeps]⟩
  | succ n ih =>
    intro i last trace
    rw [resolveSrvRecordLoop_step]
    have hA := attempts_singleton (Event.SrvAttempt name) rfl
    have hS := sleeps_singleton (Event.SrvAttempt name) rfl
    have hsb := sleeps_sleepBefore i
    by_cases hu : isUsable
        (resolveSrvRecordOnce (env.LookupSRV (sleepBefore i trace).length) name) = true
    · rw [if_pos hu]
      refine ⟨sleepBefore i [] ++ [Event.SrvAttempt name], ?_, ?_, ?_⟩
      · rw [sleepBefore_eq_append, List.append_assoc]
      · rw [attempts_append, attempts_sleepBefore, hA]
        omega
      · rw [sleeps_append, hsb, hS]
        by_cases hi : i > 0
        · simp only [hi, if_true]
          omega
        · simp only [hi, if_false]
          omega
    · rw [if_neg hu]
      obtain ⟨new, htr, hatt, hsl⟩ := ih (i + 1)
        (resolveSrvRecordOnce (env.LookupSRV (sleepBefore i trace).length) name)
        (sleepBefore i trace ++ [Event.SrvAttempt name])
      simp only [Nat.succ_pos, if_true, gt_iff_lt] at hsl
      refine ⟨sleepBefore i [] ++ [Event.SrvAttempt name] ++ new, ?_, ?_, ?_⟩
      · rw [htr, sleepBefore_eq_append]
        simp
      · rw [attempts_append, attempts_append, attempts_sleepBefore, hA]
        omega
      · rw [sleeps_append, sleeps_append, hsb, hS]
        by_cases hi : i > 0
        · simp only [hi, if_true]
          omega
        · simp only [hi, if_false]
          omega

/-- The TXT loop returns what its last attempt returned, and that attempt is the
last event of its trace. -/
theorem resolveTxtRecordLoop_last_attempt (env : Env) (name : GoString) :
    ∀ (n i : Nat) (last r : GoString × Nat × Option Error) (trace tr : List Event),
      resolveTxtRecordLoop env name (n + 1) i last trace = some (r, tr) →
      ∃ mid : List Event, tr = trace ++ mid ++ [Event.TxtAttempt name] ∧
        resolveTxtRecordOnce (env.LookupTXT (trace ++ mid).length) name = some r := by
  intro n
  induction n with
  | zero =>
    intro i last r trace tr h
    rw [resolveTxtRecordLoop_step] at h
    cases hr : resolveTxtRecordOnce (env.LookupTXT (sleepBefore i trace).length) name with
    | none => simp [hr] at h
    | some r0 =>
      simp only [hr, resolveTxtRecordLoop, ite_self, Option.some.injEq, Prod.mk.injEq] at h
      refine ⟨sleepBefore i [], ?_, ?_⟩
      · rw [← h.2, ← sleepBefore_eq_append]
      · rw [← sleepBefore_eq_append, hr, h.1]
  | succ n ih =>
    intro i last r trace tr h
    rw [resolveTxtRecordLoop_step] at h
    cases hr : resolveTxtRecordOnce (env.LookupTXT (sleepBefore i trace).length) name with
    | none => simp [hr] at h
    | some r0 =>
      simp only [hr] at h
      by_cases hu : isUsable r0 = true
      · simp only [hu, if_true, Option.some.injEq, Prod.mk.injEq] at h
        refine ⟨sleepBefore i [], ?_, ?_⟩
        · rw [← h.2, ← sleepBefore_eq_append]
        · rw [← sleepBefore_eq_append, hr, h.1]
      · simp only [hu, if_false, Bool.false_eq_true] at h
        obtain ⟨mid, htr, hres⟩ := ih (i + 1) r0 r _ tr h
        refine ⟨sleepBefore i [] ++ [Event.TxtAttempt name] ++ mid, ?_, ?_⟩
        · rw [htr, sleepBefore_eq_append]
          simp
        · have hcat : trace ++ (sleepBefore i [] ++ [Event.TxtAttempt name] ++ mid) =
              sleepBefore i trace ++ [Event.TxtAttempt name] ++ mid := by
            rw [sleepBefore_eq_append i trace]
            simp
          rw [hcat]
          exact hres

/-- The SRV loop returns what its last attempt returned, and that attempt is the
last event of its trace. -/
theorem resolveSrvRecordLoop_last_attempt (env : Env) (name : GoString) :
    ∀ (n i : Nat) (last : GoString × Nat × Option Error) (trace : List Event),
      ∃ mid : List Event,
        (resolveSrvRecordLoop env name (n + 1) i last trace).2 =
          trace ++ mid ++ [Event.SrvAttempt name] ∧
        (resolveSrvRecordLoop env name (n + 1) i last trace).1 =
          resolveSrvRecordOnce (env.LookupSRV (trace ++ mid).length) name := by
  intro n
  induction n with
  | zero =>
    intro i last trace
    rw [resolveSrvRecordLoop_step]
    refine ⟨sleepBefore i [], ?_, ?_⟩
    · rw [← sleepBefore_eq_append]
      split <;> simp [resolveSrvRecordLoop]
    · rw [← sleepBefore_eq_append]
      split <;> simp [resolveSrvRecordLoop]
  | succ n ih =>
    intro i last trace
    rw [resolveSrvRecordLoop_step]
    by_cases hu : isUsable
        (resolveSrvRecordOnce (env.LookupSRV (sleepBefore i trace).length) name) = true
    · rw [if_pos hu]
      exact ⟨sleepBefore i [], by rw [← sleepBefore_eq_append], by rw [← sleepBefore_eq_append]⟩
    · rw [if_neg hu]
      obtain ⟨mid, htr, hres⟩ := ih (i + 1)
        (resolveSrvRecordOnce (env.LookupSRV (sleepBefore i trace).length) name)
        (sleepBefore i trace ++ [Event.SrvAttempt name])
      refine ⟨sleepBefore i [] ++ [Event.SrvAttempt name] ++ mid, ?_, ?_⟩
      · rw [htr, sleepBefore_eq_append]
        simp
      · rw [hres, sleepBefore_eq_append]
        simp

/-- From one attempt to the next two units of time pass. -/
theorem length_sleepBefore_next (i : Nat) (trace : List Event) (e : Event) :
    (sleepBefore (i + 1) (sleepBefore i trace ++ [e])).length =
      (sleepBefore i trace).length + 2 := by
  rw [length_sleepBefore_succ]
  simp

/-- The TXT loop returns the first usable outcome, when the attempts before it
return outcomes that are not usable. -/
theorem resolveTxtRecordLoop_first_usable (env : Env) (name : GoString) :
    ∀ (k n i : Nat) (last r : GoString × Nat × Option Error) (trace : List Event),
      k < n →
      (∀ j, j < k → ∃ rj,
        resolveTxtRecordOnce (env.LookupTXT ((sleepBefore i trace).length + 2 * j)) name =
          some rj ∧ isUsable rj = false) →
      resolveTxtRecordOnce (env.LookupTXT ((sleepBefore i trace).length + 2 * k)) name =
        some r →
      isUsable r = true →
      ∃ new : List Event,
        resolveTxtRecordLoop env name n i last trace = some (r, trace ++ new) ∧
        attempts new = k + 1 ∧ sleeps new = (if i > 0 then k + 1 else k) := by
  intro k
  induction k with
  | zero =>
    intro n i last r trace hn _ hr hu
    obtain ⟨m, rfl⟩ : ∃ m, n = m + 1 := ⟨n - 1, by omega⟩
    refine ⟨sleepBefore i [] ++ [Event.TxtAttempt name], ?_, ?_, ?_⟩
    · rw [resolveTxtRecordLoop_step]
      simp only [Nat.mul_zero, Nat.add_zero] at hr
      simp only [hr, hu, if_true]
      rw [sleepBefore_eq_append, List.append_assoc]
    · rw [attempts_append, attempts_sleepBefore, attempts_singleton (Event.TxtAttempt name) rfl]
    · rw [sleeps_append, sleeps_sleepBefore, sleeps_singleton (Event.TxtAttempt name) rfl]
      by_cases hi : i > 0 <;> simp [hi]
  | succ k ih =>
    intro n i last r trace hn hbefore hr hu
    obtain ⟨m, rfl⟩ : ∃ m, n = m + 1 := ⟨n - 1, by omega⟩
    obtain ⟨r0, hr0, hu0⟩ := hbefore 0 (Nat.succ_pos k)
    simp only [Nat.mul_zero, Nat.add_zero] at hr0
    have htime := length_sleepBefore_next i trace (Event.TxtAttempt name)
    obtain ⟨new, hloop, hatt, hsl⟩ := ih m (i + 1) r0 r
      (sleepBefore i trace ++ [Event.TxtAttempt name]) (by omega)
      (by
        intro j hj
        obtain ⟨rj, hrj, huj⟩ := hbefore (j + 1) (by omega)
        refine ⟨rj, ?_, huj⟩
        rw [htime, show (sleepBefore i trace).length + 2 + 2 * j =
          (sleepBefore i trace).length + 2 * (j + 1) by omega]
        exact hrj)
      (by
        rw [htime, show (sleepBefore i trace).length + 2 + 2 * k =
          (sleepBefore i trace).length + 2 * (k + 1) by omega]
        exact hr)
      hu
    simp only [Nat.succ_pos, if_true, gt_iff_lt] at hsl
    refine ⟨sleepBefore i [] ++ [Event.TxtAttempt name] ++ new, ?_, ?_, ?_⟩
    · rw [resolveTxtRecordLoop_step]
      simp only [hr0, hu0, if_false, Bool.false_eq_true]
      rw [hloop, sleepBefore_eq_append]
      simp
    · rw [attempts_append, attempts_append, attempts_sleepBefore,
        attempts_singleton (Event.TxtAttempt name) rfl, hatt]
      omega
    · rw [sleeps_append, sleeps_append, sleeps_sleepBefore,
        sleeps_singleton (Event.TxtAttempt name) rfl, hsl]
      by_cases hi : i > 0
      · simp only [hi, if_true]
        omega
      · simp only [hi, if_false]
        omega

/-- The TXT loop runs all its iterations and returns the outcome of the last one
when no attempt returns a usable outcome. -/
theorem resolveTxtRecordLoop_none_usable (env : Env) (name : GoString) :
    ∀ (n i : Nat) (last : GoString × Nat × Option Error) (trace : List Event),
      (∀ j, j < n + 1 → ∃ rj,
        resolveTxtRecordOnce (env.LookupTXT ((sleepBefore i trace).length + 2 * j)) name =
          some rj ∧ isUsable rj = false) →
      ∃ (r : GoString × Nat × Option Error) (new : List Event),
        resolveTxtRecordLoop env name (n + 1) i last trace = some (r, trace ++ new) ∧
        resolveTxtRecordOnce (env.LookupTXT ((sleepBefore i trace).length + 2 * n)) name =
          some r ∧
        attempts new = n + 1 ∧ sleeps new = (if i > 0 then n + 1 else n) := by
  intro n
  induction n with
  | zero =>
    intro i last trace hall
    obtain ⟨r0, hr0, hu0⟩ := hall 0 (by omega)
    refine ⟨r0, sleepBefore i [] ++ [Event.TxtAttempt name], ?_, hr0, ?_, ?_⟩
    · rw [resolveTxtRecordLoop_step]
      simp only [Nat.mul_zero, Nat.add_zero] at hr0
      simp only [hr0, hu0, if_false, Bool.false_eq_true, resolveTxtRecordLoop]
      rw [sleepBefore_eq_append, List.append_assoc]
    · rw [attempts_append, attempts_sleepBefore, attempts_singleton (Event.TxtAttempt name) rfl]
    · rw [sleeps_append, sleeps_sleepBefore, sleeps_singleton (Event.TxtAttempt name) rfl]
      by_cases hi : i > 0 <;> simp [hi]
  | succ n ih =>
    intro i last trace hall
    obtain ⟨r0, hr0, hu0⟩ := hall 0 (by omega)
    simp only [Nat.mul_zero, Nat.add_zero] at hr0
    have htime := length_sleepBefore_next i trace (Event.TxtAttempt name)
    obtain ⟨r, new, hloop, hlast, hatt, hsl⟩ := ih (i + 1) r0
      (sleepBefore i trace ++ [Event.TxtAttempt name])
      (by
        intro j hj
        obtain ⟨rj, hrj, huj⟩ := hall (j + 1) (by omega)
        refine ⟨rj, ?_, huj⟩
        rw [htime, show (sleepBefore i trace).length + 2 + 2 * j =
          (sleepBefore i trace).length + 2 * (j + 1) by omega]
        exact hrj)
    simp only [Nat.succ_pos, if_true, gt_iff_lt] at hsl
    refine ⟨r, sleepBefore i [] ++ [Event.TxtAttempt name] ++ new, ?_, ?_, ?_, ?_⟩
    · rw [resolveTxtRecordLoop_step]
      simp only [hr0, hu0, if_false, Bool.false_eq_true]
      rw [hloop, sleepBefore_eq_append]
      simp
    · rw [htime, show (sleepBefore i trace).length + 2 + 2 * n =
        (sleepBefore i trace).length + 2 * (n + 1) by omega] at hlast
      exact hlast
    · rw [attempts_append, attempts_append, attempts_sleepBefore,
        attempts_singleton (Event.TxtAttempt name) rfl, hatt]
      omega
    · rw [sleeps_append, sleeps_append, sleeps_sleepBefore,
        sleeps_singleton (Event.TxtAttempt name) rfl, hsl]
      by_cases hi : i > 0
      · simp only [hi, if_true]
        omega
      · simp only [hi, if_false]
        omega

/-- The SRV loop returns the first usable outcome. -/
theorem resolveSrvRecordLoop_first_usable (env : Env) (name : GoString) :
    ∀ (k n i : Nat) (last : GoString × Nat × Option Error) (trace : List Event),
      k < n →
      (∀ j, j < k → isUsable
        (resolveSrvRecordOnce (env.LookupSRV ((sleepBefore i trace).length + 2 * j)) name) =
          false) →
      isUsable
        (resolveSrvRecordOnce (env.LookupSRV ((sleepBefore i trace).length + 2 * k)) name) =
          true →
      ∃ new : List Event,
        resolveSrvRecordLoop env name n i last trace =
          (resolveSrvRecordOnce (env.LookupSRV ((sleepBefore i trace).length + 2 * k)) name,
            trace ++ new) ∧
        attempts new = k + 1 ∧ sleeps new = (if i > 0 then k + 1 else k) := by
  intro k
  induction k with
  | zero =>
    intro n i last trace hn _ hu
    obtain ⟨m, rfl⟩ : ∃ m, n = m + 1 := ⟨n - 1, by omega⟩
    simp only [Nat.mul_zero, Nat.add_zero] at hu ⊢
    refine ⟨sleepBefore i [] ++ [Event.SrvAttempt name], ?_, ?_, ?_⟩
    · rw [resolveSrvRecordLoop_step, if_pos hu, sleepBefore_eq_append, List.append_assoc]
    · rw [attempts_append, attempts_sleepBefore, attempts_singleton (Event.SrvAttempt name) rfl]
    · rw [sleeps_append, sleeps_sleepBefore, sleeps_singleton (Event.SrvAttempt name) rfl]
      by_cases hi : i > 0 <;> simp [hi]
  | succ k ih =>
    intro n i last trace hn hbefore hu
    obtain ⟨m, rfl⟩ : ∃ m, n = m + 1 := ⟨n - 1, by omega⟩
    have hu0 := hbefore 0 (Nat.succ_pos k)
    simp only [Nat.mul_zero, Nat.add_zero] at hu0
    have htime := length_sleepBefore_next i trace (Event.SrvAttempt name)
    have hshift : ∀ j, (sleepBefore (i + 1) (sleepBefore i trace ++
        [Event.SrvAttempt name])).length + 2 * j = (sleepBefore i trace).length + 2 * (j + 1) := by
      intro j
      rw [htime]
      omega
    obtain ⟨new, hloop, hatt, hsl⟩ := ih m (i + 1)
      (resolveSrvRecordOnce (env.LookupSRV (sleepBefore i trace).length) name)
      (sleepBefore i trace ++ [Event.SrvAttempt name]) (by omega)
      (by
        intro j hj
        rw [hshift]
        exact hbefore (j + 1) (by omega))
      (by
        rw [hshift]
        exact hu)
    simp only [Nat.succ_pos, if_true, gt_iff_lt] at hsl
    rw [hshift] at hloop
    refine ⟨sleepBefore i [] ++ [Event.SrvAttempt name] ++ new, ?_, ?_, ?_⟩
    · rw [resolveSrvRecordLoop_step, if_neg (by simp [hu0]), hloop, sleepBefore_eq_append]
      simp
    · rw [attempts_append, attempts_append, attempts_sleepBefore,
        attempts_singleton (Event.SrvAttempt name) rfl, hatt]
      omega
    · rw [sleeps_append, sleeps_append, sleeps_sleepBefore,
        sleeps_singleton (Event.SrvAttempt name) rfl, hsl]
      by_cases hi : i > 0
      · simp only [hi, if_true]
        omega
      · simp only [hi, if_false]
        omega

/-- The SRV loop runs all its iterations and returns the outcome of the last one
when no attempt returns a usable outcome. -/
theorem resolveSrvRecordLoop_none_usable (env : Env) (name : GoString) :
    ∀ (n i : Nat) (last : GoString × Nat × Option Error) (trace : List Event),
      (∀ j, j < n + 1 → isUsable
        (resolveSrvRecordOnce (env.LookupSRV ((sleepBefore i trace).length + 2 * j)) name) =
          false) →
      ∃ new : List Event,
        resolveSrvRecordLoop env name (n + 1) i last trace =
          (resolveSrvRecordOnce (env.LookupSRV ((sleepBefore i trace).length + 2 * n)) name,
            trace ++ new) ∧
        attempts new = n + 1 ∧ sleeps new = (if i > 0 then n + 1 else n) := by
  intro n
  induction n with
  | zero =>
    intro i last trace hall
    have hu0 := hall 0 (by omega)
    simp only [Nat.mul_zero, Nat.add_zero] at hu0 ⊢
    refine ⟨sleepBefore i [] ++ [Event.SrvAttempt name], ?_, ?_, ?_⟩
    · rw [resolveSrvRecordLoop_step, if_neg (by simp [hu0]), resolveSrvRecordLoop,
        sleepBefore_eq_append, List.append_assoc]
    · rw [attempts_append, attempts_sleepBefore, attempts_singleton (Event.SrvAttempt name) rfl]
    · rw [sleeps_append, sleeps_sleepBefore, sleeps_singleton (Event.SrvAttempt name) rfl]
      by_cases hi : i > 0 <;> simp [hi]
  | succ n ih =>
    intro i last trace hall
    have hu0 := hall 0 (by omega)
    simp only [Nat.mul_zero, Nat.add_zero] at hu0
    have htime := length_sleepBefore_next i trace (Event.SrvAttempt name)
    have hshift : ∀ j, (sleepBefore (i + 1) (sleepBefore i trace ++
        [Event.SrvAttempt name])).length + 2 * j = (sleepBefore i trace).length + 2 * (j + 1) := by
      intro j
      rw [htime]
      omega
    obtain ⟨new, hloop, hatt, hsl⟩ := ih (i + 1)
      (resolveSrvRecordOnce (env.LookupSRV (sleepBefore i trace).length) name)
      (sleepBefore i trace ++ [Event.SrvAttempt name])
      (by
        intro j hj
        rw [hshift]
        exact hall (j + 1) (by omega))
    simp only [Nat.succ_pos, if_true, gt_iff_lt] at hsl
    rw [hshift] at hloop
    refine ⟨sleepBefore i [] ++ [Event.SrvAttempt name] ++ new, ?_, ?_, ?_⟩
    · rw [resolveSrvRecordLoop_step, if_neg (by simp [hu0]), hloop, sleepBefore_eq_append]
      simp
    · rw [attempts_append, attempts_append, attempts_sleepBefore,
        attempts_singleton (Event.SrvAttempt name) rfl, hatt]
      omega
    · rw [sleeps_append, sleeps_append, sleeps_sleepBefore,
        sleeps_singleton (Event.SrvAttempt name) rfl, hsl]
      by_cases hi : i > 0
      · simp only [hi, if_true]
        omega
      · simp only [hi, if_false]
        omega

/-! ## Which errors are retried, and what a loop returns -/

/-- C11: in the loop of `resolveHostname`, when an attempt fails with the error `err`
and the loop has another iteration left, the attempt is followed by a sleep and
another attempt if `err` is `WSATRY_AGAIN`, or if `err` is `WSAHOST_NOT_FOUND`, the
process was started at boot and the connectivity signal says offline; for every
other `err` the loop returns what the attempt returned, at once. -/
theorem resolveHostname_retries_exactly_transient (env : Env) (name : GoString) (n i : Nat)
    (last : GoString × Option Error) (trace : List Event) (err : Error)
    (hfail : (resolveHostnameOnce (env.GetAddrInfoW (sleepBefore i trace).length) name).2 =
      some err) :
    ((err = WSATRY_AGAIN ∨ (err = WSAHOST_NOT_FOUND ∧ env.StartedAtBoot = true ∧
          env.internetGetConnectedState ((sleepBefore i trace).length + 1) = false)) →
      ∃ extra tail : List Event, attempts extra = 0 ∧ sleeps extra = 0 ∧
        (resolveHostnameLoop env name (n + 2) i last trace).2 =
          sleepBefore i trace ++ [Event.HostnameAttempt name] ++ extra ++
            Event.Sleep 4 :: Event.HostnameAttempt name :: tail) ∧
    (¬ (err = WSATRY_AGAIN ∨ (err = WSAHOST_NOT_FOUND ∧ env.StartedAtBoot = true ∧
          env.internetGetConnectedState ((sleepBefore i trace).length + 1) = false)) →
      ∃ extra : List Event, attempts extra = 0 ∧ sleeps extra = 0 ∧
        resolveHostnameLoop env name (n + 1) i last trace =
          (resolveHostnameOnce (env.GetAddrInfoW (sleepBefore i trace).length) name,
            sleepBefore i trace ++ [Event.HostnameAttempt name] ++ extra)) := by
  have hne : WSAHOST_NOT_FOUND ≠ WSATRY_AGAIN := by decide
  constructor
  · intro hretry
    have hgo : ∃ extra : List Event, attempts extra = 0 ∧ sleeps extra = 0 ∧
        resolveHostnameLoop env name (n + 2) i last trace =
          resolveHostnameLoop env name (n + 1) (i + 1)
            (resolveHostnameOnce (env.GetAddrInfoW (sleepBefore i trace).length) name)
            (sleepBefore i trace ++ [Event.HostnameAttempt name] ++ extra) := by
      rcases hretry with h | ⟨h, hboot, hoff⟩
      · refine ⟨[], rfl, rfl, ?_⟩
        rw [resolveHostnameLoop]
        simp [hfail, h]
      · refine ⟨[Event.ConnectedState], rfl, rfl, ?_⟩
        rw [resolveHostnameLoop]
        simp [hfail, h, hne, hboot, hoff]
    obtain ⟨extra, hatt, hsl, hloop⟩ := hgo
    obtain ⟨new, htr, _, _, hhead⟩ := resolveHostnameLoop_trace env name (n + 1) (i + 1)
      (resolveHostnameOnce (env.GetAddrInfoW (sleepBefore i trace).length) name)
      (sleepBefore i trace ++ [Event.HostnameAttempt name] ++ extra)
    obtain ⟨tail, rfl⟩ := hhead (Nat.succ_pos n)
    refine ⟨extra, tail, hatt, hsl, ?_⟩
    rw [hloop, htr]
    simp [sleepBefore]
  · intro hstop
    rw [not_or] at hstop
    obtain ⟨h1, h2⟩ := hstop
    rw [resolveHostnameLoop]
    by_cases hb : err = WSAHOST_NOT_FOUND ∧ env.StartedAtBoot = true
    · have hon : ¬ env.internetGetConnectedState ((sleepBefore i trace).length + 1) = false :=
        fun hoff => h2 ⟨hb.1, hb.2, hoff⟩
      exact ⟨[Event.ConnectedState], rfl, rfl, by simp [hfail, hb.1, hb.2, hne, hon]⟩
    · exact ⟨[], rfl, rfl, by simp [hfail, h1, hb]⟩

/-- C11, for a host not found: at boot and offline the attempt is followed by
another one, and for a process not started at boot `resolveHostname` returns the
error after one attempt. -/
theorem resolveHostname_retries_exactly_transient_witness :
    (∃ extra tail : List Event, attempts extra = 0 ∧ sleeps extra = 0 ∧
      (resolveHostnameLoop failingEnv (bytes "x") (38 + 2) 0 ([], none) []).2 =
        sleepBefore 0 [] ++ [Event.HostnameAttempt (bytes "x")] ++ extra ++
          Event.Sleep 4 :: Event.HostnameAttempt (bytes "x") :: tail) ∧
    (∃ extra : List Event, attempts extra = 0 ∧ sleeps extra = 0 ∧
      resolveHostnameLoop exampleEnv (bytes "x") (9 + 1) 0 ([], none) [] =
        (resolveHostnameOnce (exampleEnv.GetAddrInfoW (sleepBefore 0 []).length) (bytes "x"),
          sleepBefore 0 [] ++ [Event.HostnameAttempt (bytes "x")] ++ extra)) ∧
    resolveHostname exampleEnv (bytes "x") [] =
      (([], some WSAHOST_NOT_FOUND), [Event.HostnameAttempt (bytes "x")]) :=
  ⟨(resolveHostname_retries_exactly_transient failingEnv (bytes "x") 38 0 ([], none) []
      WSAHOST_NOT_FOUND rfl).1 (Or.inr ⟨rfl, rfl, rfl⟩),
    (resolveHostname_retries_exactly_transient exampleEnv (bytes "x") 9 0 ([], none) []
      WSAHOST_NOT_FOUND rfl).2 (by decide),
    by decide⟩

/-- C12: what `resolveHostname` returns is what the last hostname attempt of its
trace returned, and what `resolveTxtRecord` returns is what the TXT attempt that
ends its trace returned: target, port and error, of no earlier attempt and of no
other origin, also when the budget is exhausted. -/
theorem retry_loops_return_last_attempt (env : Env) (name : GoString) (trace : List Event) :
    (∃ mid post : List Event,
      (resolveHostname env name trace).2 =
        trace ++ mid ++ Event.HostnameAttempt name :: post ∧
      attempts post = 0 ∧
      (resolveHostname env name trace).1 =
        resolveHostnameOnce (env.GetAddrInfoW (trace ++ mid).length) name) ∧
    (∀ (r : GoString × Nat × Option Error) (tr : List Event),
      resolveTxtRecord env name trace = some (r, tr) →
      ∃ mid : List Event, tr = trace ++ mid ++ [Event.TxtAttempt name] ∧
        resolveTxtRecordOnce (env.LookupTXT (trace ++ mid).length) name = some r) := by
  obtain ⟨m, hm⟩ : ∃ m, maxTries env = m + 1 := by
    cases hb : env.StartedAtBoot <;> simp [maxTries, hb]
  constructor
  · rw [resolveHostname, hm]
    exact resolveHostnameLoop_last_attempt env name m 0 ([], none) trace
  · intro r tr h
    rw [resolveTxtRecord, hm] at h
    exact resolveTxtRecordLoop_last_attempt env name m 0 ([], 0, none) r trace tr h

/-- C12, for a TXT lookup that never finds a record: after 10 attempts the result
is that of the last one. -/
theorem retry_loops_return_last_attempt_witness :
    ∃ mid : List Event,
      List.intersperse (Event.Sleep 4) (List.replicate 10 (Event.TxtAttempt (bytes "zz"))) =
        [] ++ mid ++ [Event.TxtAttempt (bytes "zz")] ∧
      resolveTxtRecordOnce (exampleEnv.LookupTXT (([] : List Event) ++ mid).length)
        (bytes "zz") = some ([], 0, none) :=
  (retry_loops_return_last_attempt exampleEnv (bytes "zz") []).2 ([], 0, none)
    (List.intersperse (Event.Sleep 4) (List.replicate 10 (Event.TxtAttempt (bytes "zz"))))
    (by decide)

/-! ## What a successful run leaves in the configuration -/

/-- The function `resolveHostname` returns a literal IP address when it returns no
error, and the empty string when it returns an error. -/
theorem resolveHostname_result (env : Env) (name : GoString) (trace : List Event) :
    ((resolveHostname env name trace).1.2 = none →
      IsIPLiteral (resolveHostname env name trace).1.1) ∧
    ((resolveHostname env name trace).1.2 ≠ none → (resolveHostname env name trace).1.1 = []) := by
  obtain ⟨m, hm⟩ : ∃ m, maxTries env = m + 1 := by
    cases hb : env.StartedAtBoot <;> simp [maxTries, hb]
  obtain ⟨mid, post, _, _, hres⟩ := resolveHostnameLoop_last_attempt env name m 0 ([], none) trace
  rw [resolveHostname, hm, hres]
  exact resolveHostnameOnce_result _ name

/-- A dotted decimal form has a dot. -/
theorem mem_digits_string4 (a b c d : Nat) : (46 : Nat) ∈ netip.string4 a b c d := by
  simp [netip.string4]

/-- The hexadecimal form of an IPv6 address has a colon. -/
theorem mem_colon_string6 (g : List Nat) (zeroStart zeroEnd : Nat) :
    (58 : Nat) ∈ netip.string6 g zeroStart zeroEnd 9 0 := by
  rw [netip.string6]
  by_cases h0 : 0 = zeroStart
  · subst h0
    simp
  · simp only [if_neg h0, ge_iff_le, Nat.le_zero_eq, OfNat.ofNat_ne_zero, if_false,
      gt_iff_lt, Nat.lt_irrefl, List.nil_append, Nat.zero_add]
    rw [netip.string6]
    by_cases h1 : 1 = zeroStart
    · subst h1
      simp
    · simp [h1]

/-- A literal IP address has a dot or a colon. -/
theorem IsIPLiteral_has_separator (host : GoString) (h : IsIPLiteral host) :
    (46 : Nat) ∈ host ∨ (58 : Nat) ∈ host := by
  obtain ⟨a, hv, rfl⟩ := h
  cases a with
  | zero => simp [netip.Addr.IsValid] at hv
  | ip4 a b c d => exact Or.inl (mem_digits_string4 a b c d)
  | ip6 g zone =>
    right
    simp only [netip.Addr.String]
    split
    · have : (58 : Nat) ∈ bytes "::ffff:" := by decide
      simp [this]
    · simp [mem_colon_string6]

/-- What the resolver of a peer returns when it returns no error: a literal IP
address unless the peer is in TXT mode, and the port of the peer in plain hostname
mode. -/
theorem resolveEndpoint_success (env : Env) (e : Endpoint) (trace trace1 : List Event)
    (host : GoString) (port : Nat)
    (h : resolveEndpoint env e trace = some ((host, port, none), trace1)) :
    (e.Port ≠ 1 → IsIPLiteral host) ∧ (e.Port ≠ 0 → e.Port ≠ 1 → port = e.Port) := by
  rw [resolveEndpoint] at h
  by_cases h0 : e.Port = 0
  · simp only [h0, if_true, resolveSrvRecord, Option.some.injEq, Prod.mk.injEq] at h
    obtain ⟨⟨hhost, _, herr⟩, _⟩ := h
    refine ⟨fun _ => ?_, fun hne => absurd h0 hne⟩
    rw [← hhost]
    exact (resolveHostname_result env _ _).1 herr
  · by_cases h1 : e.Port = 1
    · exact ⟨fun hne => absurd h1 hne, fun _ hne => absurd h1 hne⟩
    · simp only [h0, h1, if_false, Option.some.injEq, Prod.mk.injEq] at h
      obtain ⟨⟨hhost, hport, herr⟩, _⟩ := h
      refine ⟨fun _ => ?_, fun _ _ => hport.symm⟩
      rw [← hhost]
      exact (resolveHostname_result env _ _).1 herr

/-- The peers a run without error returns, peer by peer. -/
theorem ResolveEndpointsLoop_success (env : Env) (peers : List Peer) :
    ∀ (trace : List Event) (o : Outcome),
      ResolveEndpointsLoop env peers trace = some o → o.err = none →
      List.Forall₂
        (fun p q : Peer =>
          (p.Endpoint.Host = [] → q = p) ∧
          (p.Endpoint.Host ≠ [] → p.Endpoint.Port ≠ 1 → IsIPLiteral q.Endpoint.Host) ∧
          (p.Endpoint.Host ≠ [] → p.Endpoint.Port ≠ 0 → p.Endpoint.Port ≠ 1 →
            q.Endpoint.Port = p.Endpoint.Port))
        peers o.Peers := by
  induction peers with
  | nil =>
    intro trace o h _
    simp only [ResolveEndpointsLoop, Option.some.injEq] at h
    subst h
    exact List.Forall₂.nil
  | cons p rest ih =>
    intro trace o h hok
    rw [ResolveEndpointsLoop] at h
    by_cases hp : p.Endpoint.IsEmpty = true
    · rw [if_pos hp] at h
      cases hrest : ResolveEndpointsLoop env rest trace with
      | none => simp [hrest] at h
      | some o1 =>
        simp only [hrest, Option.map_some', Option.some.injEq] at h
        subst h
        have hnil : p.Endpoint.Host = [] := by
          simpa [Endpoint.IsEmpty] using hp
        exact List.Forall₂.cons ⟨fun _ => rfl, fun hne => absurd hnil hne,
          fun hne => absurd hnil hne⟩ (ih trace o1 hrest hok)
    · rw [if_neg hp] at h
      cases hstep : resolveEndpoint env p.Endpoint trace with
      | none => simp [hstep] at h
      | some r =>
        obtain ⟨⟨host, port, err⟩, trace1⟩ := r
        cases err with
        | some e =>
          simp only [hstep, Option.some.injEq] at h
          subst h
          simp at hok
        | none =>
          simp only [hstep] at h
          cases hrest : ResolveEndpointsLoop env rest trace1 with
          | none => simp [hrest] at h
          | some o1 =>
            simp only [hrest, Option.map_some', Option.some.injEq] at h
            subst h
            have hne : p.Endpoint.Host ≠ [] := fun hnil => hp (by simp [Endpoint.IsEmpty, hnil])
            obtain ⟨hlit, hport⟩ := resolveEndpoint_success env _ _ _ _ _ hstep
            exact List.Forall₂.cons ⟨fun hnil => absurd hnil hne, fun _ h1 => hlit h1,
              fun _ h0 h1 => hport h0 h1⟩ (ih trace1 o1 hrest hok)

/-- C13, as amended: after a run of `ResolveEndpoints` that returns no error, a peer
whose endpoint was empty is unchanged, a peer whose endpoint was not empty and
whose port was not 1 has a literal IP address as host, and a peer whose port was
neither 0 nor 1 has the port it had. -/
theorem ResolveEndpoints_success_invariant (env : Env) (config : Config)
    (trace : List Event) (o : Outcome)
    (hrun : ResolveEndpoints env config trace = some o) (hok : o.err = none) :
    List.Forall₂
      (fun p q : Peer =>
        (p.Endpoint.Host = [] → q = p) ∧
        (p.Endpoint.Host ≠ [] → p.Endpoint.Port ≠ 1 → IsIPLiteral q.Endpoint.Host) ∧
        (p.Endpoint.Host ≠ [] → p.Endpoint.Port ≠ 0 → p.Endpoint.Port ≠ 1 →
          q.Endpoint.Port = p.Endpoint.Port))
      config.Peers o.Peers :=
  ResolveEndpointsLoop_success env config.Peers trace o hrun hok

/-- C13 as amended, on an SRV peer, an empty peer and a plain peer. -/
theorem ResolveEndpoints_success_invariant_witness :
    List.Forall₂
      (fun p q : Peer =>
        (p.Endpoint.Host = [] → q = p) ∧
        (p.Endpoint.Host ≠ [] → p.Endpoint.Port ≠ 1 → IsIPLiteral q.Endpoint.Host) ∧
        (p.Endpoint.Host ≠ [] → p.Endpoint.Port ≠ 0 → p.Endpoint.Port ≠ 1 →
          q.Endpoint.Port = p.Endpoint.Port))
      [⟨⟨bytes "a", 0⟩⟩, ⟨⟨[], 7⟩⟩, ⟨⟨bytes "c", 443⟩⟩]
      [⟨⟨bytes "10.0.0.1", 51820⟩⟩, ⟨⟨[], 7⟩⟩, ⟨⟨bytes "10.0.0.3", 443⟩⟩] :=
  ResolveEndpoints_success_invariant exampleEnv
    ⟨[⟨⟨bytes "a", 0⟩⟩, ⟨⟨[], 7⟩⟩, ⟨⟨bytes "c", 443⟩⟩]⟩ []
    ⟨[⟨⟨bytes "10.0.0.1", 51820⟩⟩, ⟨⟨[], 7⟩⟩, ⟨⟨bytes "10.0.0.3", 443⟩⟩], none,
      [Event.SrvAttempt (bytes "a"), Event.HostnameAttempt (bytes "t"),
        Event.HostnameAttempt (bytes "c")]⟩
    (by decide) rfl

/-- C13 fails on an SRV record with port 1 and on the TXT record `host:1`: the run
returns no error and leaves an SRV peer with port 1 and a TXT peer with port 1 and
the host `host`, which is no literal IP address. -/
theorem ResolveEndpoints_success_leaves_hostname_and_marker :
    ResolveEndpoints markerEnv ⟨[⟨⟨bytes "a", 0⟩⟩, ⟨⟨bytes "b", 1⟩⟩]⟩ [] =
      some ⟨[⟨⟨bytes "10.0.0.1", 1⟩⟩, ⟨⟨bytes "host", 1⟩⟩], none,
        [Event.SrvAttempt (bytes "a"), Event.HostnameAttempt (bytes "t"),
          Event.TxtAttempt (bytes "b")]⟩ ∧
    ¬ IsIPLiteral (bytes "host") :=
  ⟨by decide, fun h => by
    have hsep := IsIPLiteral_has_separator _ h
    revert hsep
    decide⟩

/-! ## Errors of the SRV lookup and of a peer -/

/-- A failed SRV attempt returns the empty target and port 0. -/
theorem resolveSrvRecordOnce_of_error (LookupSRV : GoString → List SRV × Option Error)
    (name : GoString) (h : (resolveSrvRecordOnce LookupSRV name).2.2 ≠ none) :
    (resolveSrvRecordOnce LookupSRV name).1 = [] ∧ (resolveSrvRecordOnce LookupSRV name).2.1 = 0 := by
  rw [resolveSrvRecordOnce] at h ⊢
  rcases hcall : LookupSRV name with ⟨records, err⟩
  cases err with
  | some e => simp
  | none =>
    cases records with
    | nil => simp
    | cons r0 rest => simp [hcall] at h

/-- C14, as amended: when every SRV attempt fails, `resolveSrvRecord` makes
`maxTries` of them and returns what `resolveHostname` returns for the empty target,
with port 0: the error returned is that of the hostname resolution, not that of
the SRV lookup. -/
theorem resolveSrvRecord_drops_lookup_error (env : Env) (name : GoString)
    (trace : List Event)
    (hfail : ∀ time, (resolveSrvRecordOnce (env.LookupSRV time) name).2.2 ≠ none) :
    ∃ tail : List Event, attempts tail = maxTries env ∧
      resolveSrvRecord env name trace =
        (((resolveHostname env [] (trace ++ tail)).1.1, 0,
            (resolveHostname env [] (trace ++ tail)).1.2),
          (resolveHostname env [] (trace ++ tail)).2) := by
  obtain ⟨m, hm⟩ : ∃ m, maxTries env = m + 1 := by
    cases hb : env.StartedAtBoot <;> simp [maxTries, hb]
  obtain ⟨new, hloop, hatt, _, _⟩ :=
    resolveSrvRecordLoop_all_fail env name hfail m 0 ([], 0, none) trace
  obtain ⟨htarget, hport⟩ := resolveSrvRecordOnce_of_error _ name
    (hfail ((sleepBefore 0 trace).length + 2 * m))
  refine ⟨new, by rw [hm, hatt], ?_⟩
  rw [resolveSrvRecord, hm, hloop]
  simp only [htarget, hport]

/-- C14 as amended, for an SRV lookup that always fails. -/
theorem resolveSrvRecord_drops_lookup_error_witness :
    ∃ tail : List Event, attempts tail = maxTries staleEnv ∧
      resolveSrvRecord staleEnv (bytes "a") [] =
        (((resolveHostname staleEnv [] ([] ++ tail)).1.1, 0,
            (resolveHostname staleEnv [] ([] ++ tail)).1.2),
          (resolveHostname staleEnv [] ([] ++ tail)).2) :=
  resolveSrvRecord_drops_lookup_error staleEnv (bytes "a") []
    (fun _ => by simp [staleEnv, resolveSrvRecordOnce, bytes, utf8])

/-- C14 fails when every SRV attempt fails and the system resolver answers the
empty name: `resolveSrvRecord` returns an address, port 0 and no error. -/
theorem resolveSrvRecord_succeeds_after_failed_lookups :
    (∀ time, (resolveSrvRecordOnce (staleEnv.LookupSRV time) (bytes "a")).2.2 =
      some (Error.DNSError (bytes "server failure"))) ∧
    (resolveSrvRecord staleEnv (bytes "a") []).1 = (bytes "192.168.1.5", 0, none) :=
  ⟨fun _ => by simp [staleEnv, resolveSrvRecordOnce, bytes, utf8], by decide⟩

/-- C16, as amended: when the peers `front` are resolved without error and the
resolver of the next peer `p` returns `host`, `port` and the error `e`, the run
returns `e`, and `p` has `host` and `port` afterwards; `host` is empty unless `p` is
in TXT mode, and `port` is the port of `p` in plain hostname mode. -/
theorem ResolveEndpoints_overwrites_failed_peer (env : Env) (front back : List Peer)
    (p : Peer) (trace : List Event) (o : Outcome) (host : GoString) (port : Nat) (e : Error)
    (trace1 : List Event)
    (hfront : ResolveEndpoints env ⟨front⟩ trace = some o) (hok : o.err = none)
    (hne : p.Endpoint.Host ≠ [])
    (hfail : resolveEndpoint env p.Endpoint o.trace = some ((host, port, some e), trace1)) :
    ∃ final : Outcome,
      ResolveEndpoints env ⟨front ++ p :: back⟩ trace = some final ∧ final.err = some e ∧
      final.Peers[front.length]? = some ⟨⟨host, port⟩⟩ ∧
      (p.Endpoint.Port ≠ 1 → host = []) ∧
      (p.Endpoint.Port ≠ 0 → p.Endpoint.Port ≠ 1 → port = p.Endpoint.Port) := by
  have hempty : p.Endpoint.IsEmpty = false := by
    cases hh : p.Endpoint.Host with
    | nil => exact absurd hh hne
    | cons a s => simp [Endpoint.IsEmpty, hh]
  simp only [ResolveEndpoints] at hfront ⊢
  have hlen := ResolveEndpointsLoop_length env front trace o hfront
  refine ⟨⟨o.Peers ++ ⟨⟨host, port⟩⟩ :: back, some e, trace1⟩, ?_, rfl, ?_, ?_, ?_⟩
  · rw [ResolveEndpointsLoop_append, hfront]
    simp only [hok]
    rw [ResolveEndpointsLoop]
    simp [hempty, hfail]
  · rw [← hlen]
    show (o.Peers ++ (⟨⟨host, port⟩⟩ : Peer) :: back)[o.Peers.length]? = _
    rw [List.getElem?_append_right (le_refl _)]
    simp
  · intro h1
    rw [resolveEndpoint] at hfail
    by_cases h0 : p.Endpoint.Port = 0
    · simp only [h0, if_true, resolveSrvRecord, Option.some.injEq, Prod.mk.injEq] at hfail
      obtain ⟨⟨hhost, _, herr⟩, _⟩ := hfail
      rw [← hhost]
      exact (resolveHostname_result env _ _).2 (by rw [herr]; simp)
    · simp only [h0, h1, if_false, Option.some.injEq, Prod.mk.injEq] at hfail
      obtain ⟨⟨hhost, _, herr⟩, _⟩ := hfail
      rw [← hhost]
      exact (resolveHostname_result env _ _).2 (by rw [herr]; simp)
  · intro h0 h1
    rw [resolveEndpoint] at hfail
    simp only [h0, h1, if_false, Option.some.injEq, Prod.mk.injEq] at hfail
    exact hfail.1.2.1.symm

/-- C16 as amended, on the peer `x`, which is not found. -/
theorem ResolveEndpoints_overwrites_failed_peer_witness :
    ∃ final : Outcome,
      ResolveEndpoints exampleEnv ⟨[] ++ ⟨⟨bytes "x", 443⟩⟩ :: [⟨⟨bytes "c", 443⟩⟩]⟩ [] =
        some final ∧ final.err = some WSAHOST_NOT_FOUND ∧
      final.Peers[([] : List Peer).length]? = some ⟨⟨[], 443⟩⟩ ∧
      ((443 : Nat) ≠ 1 → ([] : GoString) = []) ∧
      ((443 : Nat) ≠ 0 → (443 : Nat) ≠ 1 → (443 : Nat) = 443) :=
  ResolveEndpoints_overwrites_failed_peer exampleEnv [] [⟨⟨bytes "c", 443⟩⟩]
    ⟨⟨bytes "x", 443⟩⟩ [] ⟨[], none, []⟩ [] 443 WSAHOST_NOT_FOUND
    [Event.HostnameAttempt (bytes "x")] (by decide) rfl (by decide) (by decide)

/-- C16 fails on the peer `x`, which is not found: its host is empty after the
call. -/
theorem ResolveEndpoints_failed_peer_loses_host :
    ResolveEndpoints exampleEnv ⟨[⟨⟨bytes "x", 443⟩⟩]⟩ [] =
      some ⟨[⟨⟨[], 443⟩⟩], some WSAHOST_NOT_FOUND, [Event.HostnameAttempt (bytes "x")]⟩ ∧
    bytes "x" ≠ [] := by
  decide

/-! ## Sleeps spent on one peer -/

/-- C17, as amended: the resolver call for one peer sleeps at most `maxTries - 1`
times in plain hostname mode and in TXT mode, and at most `2 * (maxTries - 1)` times
in SRV mode. -/
theorem resolveEndpoint_sleeps_bound (env : Env) (e : Endpoint) (trace tr : List Event)
    (r : GoString × Nat × Option Error)
    (hrun : resolveEndpoint env e trace = some (r, tr)) :
    ∃ new : List Event, tr = trace ++ new ∧
      sleeps new ≤ (if e.Port = 0 then 2 * (maxTries env - 1) else maxTries env - 1) := by
  rw [resolveEndpoint] at hrun
  by_cases h0 : e.Port = 0
  · simp only [h0, if_true, resolveSrvRecord, Option.some.injEq, Prod.mk.injEq] at hrun ⊢
    obtain ⟨new1, htr1, _, hsl1⟩ :=
      resolveSrvRecordLoop_trace env e.Host (maxTries env) 0 ([], 0, none) trace
    obtain ⟨new2, htr2, _, hsl2, _⟩ := resolveHostnameLoop_trace env
      (resolveSrvRecordLoop env e.Host (maxTries env) 0 ([], 0, none) trace).1.1
      (maxTries env) 0 ([], none)
      (resolveSrvRecordLoop env e.Host (maxTries env) 0 ([], 0, none) trace).2
    simp only [Nat.lt_irrefl, if_false, gt_iff_lt] at hsl1 hsl2
    refine ⟨new1 ++ new2, ?_, ?_⟩
    · rw [← hrun.2, resolveHostname, htr2, htr1, List.append_assoc]
    · rw [sleeps_append]
      omega
  · rw [if_neg h0] at hrun ⊢
    by_cases h1 : e.Port = 1
    · simp only [h1, if_true, resolveTxtRecord] at hrun
      obtain ⟨new, htr, _, hsl⟩ :=
        resolveTxtRecordLoop_trace env e.Host (maxTries env) 0 ([], 0, none) r trace tr hrun
      simp only [Nat.lt_irrefl, if_false, gt_iff_lt] at hsl
      exact ⟨new, htr, hsl⟩
    · simp only [h1, if_false, Option.some.injEq, Prod.mk.injEq] at hrun
      obtain ⟨new, htr, _, hsl, _⟩ :=
        resolveHostnameLoop_trace env e.Host (maxTries env) 0 ([], none) trace
      simp only [Nat.lt_irrefl, if_false, gt_iff_lt] at hsl
      refine ⟨new, ?_, hsl⟩
      rw [← hrun.2, resolveHostname, htr]

/-- C17 as amended, on a TXT peer resolved at the first attempt. -/
theorem resolveEndpoint_sleeps_bound_witness :
    ∃ new : List Event,
      [Event.TxtAttempt (bytes "b")] = [] ++ new ∧
      sleeps new ≤ (if (1 : Nat) = 0 then 2 * (maxTries exampleEnv - 1)
        else maxTries exampleEnv - 1) :=
  resolveEndpoint_sleeps_bound exampleEnv ⟨bytes "b", 1⟩ [] [Event.TxtAttempt (bytes "b")]
    (bytes "10.0.0.2", 51821, none) (by decide)

set_option maxRecDepth 100000 in
/-- C17 fails on an SRV peer of a process started at boot whose lookups always fail:
78 sleeps for a budget of 40. -/
theorem ResolveEndpoints_srv_peer_sleeps_twice_the_budget :
    (ResolveEndpoints failingEnv ⟨[⟨⟨bytes "a", 0⟩⟩]⟩ []).map (fun o => sleeps o.trace) =
      some 78 ∧
    maxTries failingEnv = 40 := by
  decide

/-! ## The target passed on by the SRV loop -/

/-- C18, as amended: the name `resolveSrvRecord` passes to `resolveHostname` and the
port it returns are those of the last SRV attempt made, the attempt that ends the
trace of the SRV loop; when that attempt failed they are the empty name and
port 0. -/
theorem resolveSrvRecord_uses_last_attempt (env : Env) (name : GoString)
    (trace : List Event) :
    ∃ mid : List Event,
      resolveSrvRecord env name trace =
        (((resolveHostname env
              (resolveSrvRecordOnce (env.LookupSRV (trace ++ mid).length) name).1
              (trace ++ mid ++ [Event.SrvAttempt name])).1.1,
            (resolveSrvRecordOnce (env.LookupSRV (trace ++ mid).length) name).2.1,
            (resolveHostname env
              (resolveSrvRecordOnce (env.LookupSRV (trace ++ mid).length) name).1
              (trace ++ mid ++ [Event.SrvAttempt name])).1.2),
          (resolveHostname env
            (resolveSrvRecordOnce (env.LookupSRV (trace ++ mid).length) name).1
            (trace ++ mid ++ [Event.SrvAttempt name])).2) ∧
      ((resolveSrvRecordOnce (env.LookupSRV (trace ++ mid).length) name).2.2 ≠ none →
        (resolveSrvRecordOnce (env.LookupSRV (trace ++ mid).length) name).1 = [] ∧
        (resolveSrvRecordOnce (env.LookupSRV (trace ++ mid).length) name).2.1 = 0) := by
  obtain ⟨m, hm⟩ : ∃ m, maxTries env = m + 1 := by
    cases hb : env.StartedAtBoot <;> simp [maxTries, hb]
  obtain ⟨mid, htr, hres⟩ := resolveSrvRecordLoop_last_attempt env name m 0 ([], 0, none) trace
  refine ⟨mid, ?_, resolveSrvRecordOnce_of_error _ name⟩
  rw [resolveSrvRecord, hm, htr, hres]

/-- C18 fails when the first SRV attempt returns target `h` and port 0 and all later
attempts fail: `resolveHostname` is called with the empty name and never with
`h`. -/
theorem resolveSrvRecord_forgets_earlier_target :
    resolveSrvRecordOnce (staleEnv.LookupSRV 0) (bytes "once") = (bytes "h", 0, none) ∧
    (∀ time, 0 < time →
      (resolveSrvRecordOnce (staleEnv.LookupSRV time) (bytes "once")).2.2 ≠ none) ∧
    (resolveSrvRecord staleEnv (bytes "once") []).2.getLast? =
      some (Event.HostnameAttempt []) ∧
    Event.HostnameAttempt (bytes "h") ∉ (resolveSrvRecord staleEnv (bytes "once") []).2 :=
  ⟨by decide,
    fun time ht => by
      have hne : time ≠ 0 := Nat.pos_iff_ne_zero.mp ht
      simp [staleEnv, resolveSrvRecordOnce, hne],
    by decide, by decide⟩

/-! ## The end of the SRV and TXT loops -/

/-- A TXT attempt that finds no record returns the empty target, port 0 and no
error. -/
theorem resolveTxtRecordOnce_of_no_record
    (LookupTXT : GoString → List GoString × Option Error) (name : GoString)
    (h : LookupTXT name = ([], none)) :
    resolveTxtRecordOnce LookupTXT name = some ([], 0, none) := by
  simp [resolveTxtRecordOnce, h]

/-- C19: the TXT loop of `resolveTxtRecord` and the SRV loop of `resolveSrvRecord`
return the outcome of the first attempt that is usable (no error, a target that
is not empty, a port that is not zero), after as many attempts; when none of the
`maxTries` attempts is usable they make `maxTries` attempts and return the outcome
of the last one. When the TXT lookup never finds a record, `resolveTxtRecord`
returns the empty target, port 0 and no error. Attempt `j` is the one made at time
`trace.length + 2 * j`. -/
theorem lookup_loops_stop_at_first_usable (env : Env) (name : GoString)
    (trace : List Event) :
    (∀ (k : Nat) (r : GoString × Nat × Option Error), k < maxTries env →
      (∀ j, j < k → ∃ rj,
        resolveTxtRecordOnce (env.LookupTXT (trace.length + 2 * j)) name = some rj ∧
          isUsable rj = false) →
      resolveTxtRecordOnce (env.LookupTXT (trace.length + 2 * k)) name = some r →
      isUsable r = true →
      ∃ tail : List Event, resolveTxtRecord env name trace = some (r, trace ++ tail) ∧
        attempts tail = k + 1 ∧ sleeps tail = k) ∧
    ((∀ j, j < maxTries env → ∃ rj,
        resolveTxtRecordOnce (env.LookupTXT (trace.length + 2 * j)) name = some rj ∧
          isUsable rj = false) →
      ∃ (r : GoString × Nat × Option Error) (tail : List Event),
        resolveTxtRecord env name trace = some (r, trace ++ tail) ∧
        resolveTxtRecordOnce (env.LookupTXT (trace.length + 2 * (maxTries env - 1))) name =
          some r ∧
        attempts tail = maxTries env) ∧
    ((∀ time, env.LookupTXT time name = ([], none)) →
      ∃ tail : List Event,
        resolveTxtRecord env name trace = some (([], 0, none), trace ++ tail) ∧
        attempts tail = maxTries env) ∧
    (∀ (k : Nat), k < maxTries env →
      (∀ j, j < k →
        isUsable (resolveSrvRecordOnce (env.LookupSRV (trace.length + 2 * j)) name) = false) →
      isUsable (resolveSrvRecordOnce (env.LookupSRV (trace.length + 2 * k)) name) = true →
      ∃ tail : List Event,
        resolveSrvRecordLoop env name (maxTries env) 0 ([], 0, none) trace =
          (resolveSrvRecordOnce (env.LookupSRV (trace.length + 2 * k)) name, trace ++ tail) ∧
        attempts tail = k + 1 ∧ sleeps tail = k) ∧
    ((∀ j, j < maxTries env →
        isUsable (resolveSrvRecordOnce (env.LookupSRV (trace.length + 2 * j)) name) = false) →
      ∃ tail : List Event,
        resolveSrvRecordLoop env name (maxTries env) 0 ([], 0, none) trace =
          (resolveSrvRecordOnce (env.LookupSRV (trace.length + 2 * (maxTries env - 1))) name,
            trace ++ tail) ∧
        attempts tail = maxTries env) := by
  obtain ⟨m, hm⟩ : ∃ m, maxTries env = m + 1 := by
    cases hb : env.StartedAtBoot <;> simp [maxTries, hb]
  have h0 : (sleepBefore 0 trace).length = trace.length := by simp [sleepBefore]
  have hexhaust : (∀ j, j < maxTries env → ∃ rj,
        resolveTxtRecordOnce (env.LookupTXT (trace.length + 2 * j)) name = some rj ∧
          isUsable rj = false) →
      ∃ (r : GoString × Nat × Option Error) (tail : List Event),
        resolveTxtRecord env name trace = some (r, trace ++ tail) ∧
        resolveTxtRecordOnce (env.LookupTXT (trace.length + 2 * (maxTries env - 1))) name =
          some r ∧
        attempts tail = maxTries env := by
    intro hall
    obtain ⟨r, new, hloop, hlast, hatt, _⟩ :=
      resolveTxtRecordLoop_none_usable env name m 0 ([], 0, none) trace
        (by rw [h0, ← hm]; exact hall)
    refine ⟨r, new, ?_, ?_, ?_⟩
    · rw [resolveTxtRecord, hm]
      exact hloop
    · rw [hm, Nat.add_sub_cancel, ← h0]
      exact hlast
    · rw [hm]
      exact hatt
  refine ⟨?_, hexhaust, ?_, ?_, ?_⟩
  · intro k r hk hbefore hr hu
    obtain ⟨new, hloop, hatt, hsl⟩ :=
      resolveTxtRecordLoop_first_usable env name k (maxTries env) 0 ([], 0, none) r trace hk
        (by rw [h0]; exact hbefore) (by rw [h0]; exact hr) hu
    exact ⟨new, hloop, hatt, by simpa using hsl⟩
  · intro hnone
    obtain ⟨r, tail, hrun, hlast, hatt⟩ := hexhaust (fun j _ =>
      ⟨([], 0, none), resolveTxtRecordOnce_of_no_record _ name (hnone _), rfl⟩)
    rw [resolveTxtRecordOnce_of_no_record _ name (hnone _), Option.some.injEq] at hlast
    subst hlast
    exact ⟨tail, hrun, hatt⟩
  · intro k hk hbefore hu
    obtain ⟨new, hloop, hatt, hsl⟩ :=
      resolveSrvRecordLoop_first_usable env name k (maxTries env) 0 ([], 0, none) trace hk
        (by rw [h0]; exact hbefore) (by rw [h0]; exact hu)
    rw [h0] at hloop
    exact ⟨new, hloop, hatt, by simpa using hsl⟩
  · intro hall
    obtain ⟨new, hloop, hatt, _⟩ :=
      resolveSrvRecordLoop_none_usable env name m 0 ([], 0, none) trace
        (by rw [h0, ← hm]; exact hall)
    rw [h0] at hloop
    refine ⟨new, ?_, ?_⟩
    · rw [hm, Nat.add_sub_cancel]
      exact hloop
    · rw [hm]
      exact hatt

/-- C19, on a TXT record and an SRV record usable at the first attempt and on a
TXT lookup that never finds a record. -/
theorem lookup_loops_stop_at_first_usable_witness :
    (∃ tail : List Event,
      resolveTxtRecord exampleEnv (bytes "b") [] =
        some ((bytes "10.0.0.2", 51821, none), [] ++ tail) ∧
      attempts tail = 0 + 1 ∧ sleeps tail = 0) ∧
    (∃ tail : List Event,
      resolveTxtRecord exampleEnv (bytes "zz") [] = some (([], 0, none), [] ++ tail) ∧
      attempts tail = maxTries exampleEnv) ∧
    (∃ tail : List Event,
      resolveSrvRecordLoop exampleEnv (bytes "a") (maxTries exampleEnv) 0 ([], 0, none) [] =
        (resolveSrvRecordOnce (exampleEnv.LookupSRV (([] : List Event).length + 2 * 0))
            (bytes "a"), [] ++ tail) ∧
      attempts tail = 0 + 1 ∧ sleeps tail = 0) :=
  ⟨(lookup_loops_stop_at_first_usable exampleEnv (bytes "b") []).1 0
      (bytes "10.0.0.2", 51821, none) (by decide) (fun j hj => absurd hj (Nat.not_lt_zero j))
      (by decide) (by decide),
    (lookup_loops_stop_at_first_usable exampleEnv (bytes "zz") []).2.2.1
      (fun _ => by simp [exampleEnv, bytes, utf8]),
    (lookup_loops_stop_at_first_usable exampleEnv (bytes "a") []).2.2.2.1 0 (by decide)
      (fun j hj => absurd hj (Nat.not_lt_zero j)) (by decide)⟩

/-! ## Target and port text of a TXT record -/

/-- A string that has a byte is cut at the last occurrence of that byte. -/
theorem exists_last_byte (c : Nat) (t : GoString) (h : c ∈ t) :
    ∃ a b : GoString, t = a ++ c :: b ∧ c ∉ b := by
  induction t with
  | nil => simp at h
  | cons x t ih =>
    by_cases ht : c ∈ t
    · obtain ⟨a, b, hab, hb⟩ := ih ht
      exact ⟨x :: a, b, by rw [hab]; rfl, hb⟩
    · have hx : c = x := by
        rcases List.mem_cons.mp h with hx | hx
        · exact hx
        · exact absurd hx ht
      exact ⟨[], t, by rw [hx]; rfl, ht⟩

/-- C15, as amended: when the first alternative `t` of the first TXT record has a
`:`, it is `h ++ ":" ++ p` with no `:` in `p`, and if `t` has no leading white space
one TXT attempt returns the target `h`, as it stands, and the port and error of
`parsePort` for `p` without its trailing white space. -/
theorem resolveTxtRecordOnce_target_and_port_text
    (LookupTXT : GoString → List GoString × Option Error) (name r t : GoString)
    (rest : List GoString) (hcall : LookupTXT name = (r :: rest, none))
    (hfirst : IsFirstAlternative t r) (hcolon : (58 : Nat) ∈ t) :
    ∃ h p : GoString, t = h ++ 58 :: p ∧ (58 : Nat) ∉ p ∧
      (leadingSpace t = 0 →
        resolveTxtRecordOnce LookupTXT name =
          some (h, (parsePort (TrimRight p)).1, (parsePort (TrimRight p)).2)) := by
  obtain ⟨h, p, rfl, hp⟩ := exists_last_byte 58 t hcolon
  exact ⟨h, p, rfl, hp, fun hlead =>
    resolveTxtRecordOnce_of_no_leading_space LookupTXT name r h p rest hcall hfirst hp hlead⟩

/-- C15 as amended, on the record `host :80 ||x:1`: target `host ` and port 80. -/
theorem resolveTxtRecordOnce_target_and_port_text_witness :
    (∃ h p : GoString, bytes "host :80 " = h ++ 58 :: p ∧ (58 : Nat) ∉ p ∧
      (leadingSpace (bytes "host :80 ") = 0 →
        resolveTxtRecordOnce (fun _ => ([bytes "host :80 ||x:1"], none)) (bytes "b") =
          some (h, (parsePort (TrimRight p)).1, (parsePort (TrimRight p)).2))) ∧
    resolveTxtRecordOnce (fun _ => ([bytes "host :80 ||x:1"], none)) (bytes "b") =
      some (bytes "host ", 80, none) :=
  ⟨resolveTxtRecordOnce_target_and_port_text (fun _ => ([bytes "host :80 ||x:1"], none))
      (bytes "b") (bytes "host :80 ||x:1") (bytes "host :80 ") [] rfl
      (Or.inr ⟨bytes "x:1", by decide, by decide⟩) (by decide),
    by decide⟩

/-- C15 fails on the record `host :80 `: the target returned ends with a space, and
the port text parsed is `80` although `80 ` follows the `:`. It fails on ` host:80`
too, where the target returned is `host:` and the port 0. -/
theorem resolveTxtRecordOnce_keeps_space_before_colon :
    resolveTxtRecordOnce (fun _ => ([bytes "host :80 "], none)) (bytes "b") =
      some (bytes "host ", 80, none) ∧
    TrimSpace (bytes "host ") ≠ bytes "host " ∧
    (parsePort (bytes "80 ")).2 ≠ none ∧
    resolveTxtRecordOnce (fun _ => ([bytes " host:80"], none)) (bytes "b") =
      some (bytes "host:", 0, none) := by
  decide

/-- C20 fails on the record `  a:1`: the offset of its `:` is 3, the trimmed record
`a:1` has length 3, and the slice from offset 4 on is out of range, so that the
attempt panics, and `ResolveEndpoints` with it. -/
theorem resolveTxtRecordOnce_panics_on_leading_space :
    LastIndexByte (bytes "  a:1") 58 = 3 ∧
    TrimSpace (bytes "  a:1") = bytes "a:1" ∧
    sliceFrom (bytes "a:1") (3 + 1) = none ∧
    resolveTxtRecordOnce (fun _ => ([bytes "  a:1"], none)) (bytes "b") = none ∧
    ResolveEndpoints
      { exampleEnv with LookupTXT := fun _ _ => ([bytes "  a:1"], none) }
      ⟨[⟨⟨bytes "b", 1⟩⟩]⟩ [] = none := by
  decide

end Conf
